import Mathlib

/-!
Graceful listener: waiter, connection wrapper and accept suspension.

A shallow embedding of `waiter.go` and `listener.go`.

* Channels live in a heap of "closed" flags; `close` on a closed or nil
  channel is the Go run-time panic.
* `uint64` / `uint32` counters are naturals reduced modulo `2^64` / `2^32`.
* Every method is first given as a sequential function on the shared state
  (`World`); the concurrent behaviour is a labelled step function on `Sys`
  whose steps are the atomic operations of the source, built from the same
  pieces.
-/

namespace Graceful

/-! ## Errors, panics, channels -/

/-- Go `error` values that the package distinguishes. -/
inductive GoError where
  | EINTR
  | ErrAlreadyStopped
  | ErrTimeout
  | other (code : Nat)
  deriving DecidableEq, Repr

/-- A Go `error`; `none` is `nil`. -/
abbrev Err := Option GoError

/-- Why a run stops: a Go run-time panic, or a step that is not enabled. -/
inductive Fault where
  | closeOfClosedChannel
  | closeOfNilChannel
  | blocked
  deriving DecidableEq, Repr

/-- A channel value: `none` is the nil channel, `some a` an address in the heap. -/
abbrev Chan := Option Nat

/-- The channels made so far; entry `a` tells whether channel `a` is closed. -/
abbrev Heap := List Bool

/-- `make(chan struct{})`. -/
def Heap.make (h : Heap) : Heap × Chan := (h ++ [false], some h.length)

/-- Whether a receive on the channel can proceed (nothing is ever sent on the
package's channels, so only a closed channel can be received from). -/
def Heap.isClosed (h : Heap) (ch : Chan) : Bool :=
  match ch with
  | none => false
  | some a => h.getD a false

/-- `close(ch)`. -/
def Heap.close (h : Heap) (ch : Chan) : Except Fault Heap :=
  match ch with
  | none => .error .closeOfNilChannel
  | some a =>
    match h[a]? with
    | some false => .ok (h.set a true)
    | _ => .error .closeOfClosedChannel

/-! ## waiter.go -/

/-- The struct `waiter`. -/
structure waiter where
  c : Nat
  waiting : Nat
  done : Chan
  cancel : Chan
  deriving DecidableEq, Repr

/-- `func (w *waiter) Add()`. -/
def waiter.Add (w : waiter) : waiter :=
  { w with c := (w.c + 1) % 2 ^ 64 }

/-- First atomic operation of `Done`: `atomic.AddUint64(&w.c, ^uint64(0))`,
returning the new count; `^uint64(0)` is `2^64 - 1`. -/
def waiter.doneDecrement (w : waiter) : waiter × Nat :=
  let newCount := (2 ^ 64 - 1 + w.c) % 2 ^ 64
  ({ w with c := newCount }, newCount)

/-- Rest of `Done` after the decrement, for the value `newCount` it returned. -/
def waiter.doneCheck (w : waiter) (h : Heap) (newCount : Nat) : Except Fault Heap :=
  if newCount = 0 then
    if w.waiting ≠ 0 then h.close w.done else .ok h
  else .ok h

/-- `func (w *waiter) Done()`. -/
def waiter.Done (w : waiter) (h : Heap) : Except Fault (waiter × Heap) :=
  match w.doneDecrement with
  | (w1, newCount) =>
    match w1.doneCheck h newCount with
    | .ok h1 => .ok (w1, h1)
    | .error e => .error e

/-- First atomic operation of `Wait`: `atomic.AddUint32(&w.waiting, 1)`,
returning the new value. -/
def waiter.waitRegister (w : waiter) : waiter × Nat :=
  let waiting := (w.waiting + 1) % 2 ^ 32
  ({ w with waiting := waiting }, waiting)

/-- The conditional close in `Wait`, for the value `waiting` the increment
returned. -/
def waiter.waitCheck (w : waiter) (h : Heap) (waiting : Nat) : Except Fault Heap :=
  if w.c = 0 ∧ waiting = 1 then h.close w.done else .ok h

/-- The `select` of `Wait` can proceed when `w.done` or `w.cancel` is closed. -/
def waiter.waitReady (w : waiter) (h : Heap) : Bool :=
  h.isClosed w.done || h.isClosed w.cancel

/-- `func (w *waiter) CancelWait()`. -/
def waiter.CancelWait (w : waiter) (h : Heap) : Except Fault Heap :=
  h.close w.cancel

/-- `func (w *waiter) Reset()`. -/
def waiter.Reset (w : waiter) (h : Heap) : waiter × Heap :=
  match h.make with
  | (h1, d) =>
    match h1.make with
    | (h2, cn) => ({ w with done := d, cancel := cn, waiting := 0 }, h2)

/-! ## listener.go -/

/-- A `sync.Once`. -/
structure Once where
  done : Bool
  deriving DecidableEq, Repr

/-- `o.Do(f)` for a callback acting on a state `σ`: the callback runs only if
the once has not been used; the once is used up afterwards. -/
def Once.Do {σ : Type} (o : Once) (f : σ → Except Fault σ) (s : σ) :
    Except Fault (Once × σ) :=
  if o.done then .ok (o, s)
  else
    match f s with
    | .ok s1 => .ok ({ done := true }, s1)
    | .error e => .error e

/-- The wrapped `net.Listener`, an external collaborator: all that is recorded
is the results of the `Close` calls made on it. -/
structure netListener where
  closeLog : List Err
  deriving DecidableEq, Repr

/-- The struct `gracefulListener`. -/
structure gracefulListener where
  Listener : netListener
  w : waiter
  once : Once
  stop : Nat
  suspend : Chan
  deriving DecidableEq, Repr

/-- The shared memory: the channel heap and the listener. -/
structure World where
  heap : Heap
  ln : gracefulListener
  deriving DecidableEq, Repr

/-- `func Upgrade(ln net.Listener) Listener`, in a heap `h`. -/
def Upgrade (h : Heap) (ln : netListener) : World :=
  match waiter.Reset { c := 0, waiting := 0, done := none, cancel := none } h with
  | (w, h1) =>
    { heap := h1
      ln := { Listener := ln, w := w, once := { done := false }, stop := 0, suspend := none } }

/-- `func (ln *gracefulListener) Close() error`; `e` is what the wrapped
listener's `Close` returns. -/
def gracefulListener.Close (s : World) (e : Err) : World × Err :=
  ({ s with ln := { s.ln with Listener := { closeLog := s.ln.Listener.closeLog ++ [e] } } }, e)

/-- `func (ln *gracefulListener) Shutdown() error`. -/
def gracefulListener.Shutdown (s : World) (e : Err) : World × Err :=
  gracefulListener.Close s e

/-- `func (ln *gracefulListener) closeConn()`. -/
def gracefulListener.closeConn (s : World) : Except Fault World :=
  match s.ln.w.Done s.heap with
  | .ok (w1, h1) => .ok { heap := h1, ln := { s.ln with w := w1 } }
  | .error e => .error e

/-- The closure `restart` built in `StopAccept`; it reads `ln.suspend` when it
is invoked. -/
def gracefulListener.restart (s : World) : Except Fault World :=
  match s.heap.close s.ln.suspend with
  | .ok h1 => .ok { heap := h1, ln := { s.ln with stop := 0, once := { done := false } } }
  | .error e => .error e

/-- `func (ln *gracefulListener) StopAccept() (restart func(), err error)`.
`ln.once.Do` is written out: its callback runs, and `restart` is set, only
when the once has not been used. The result is the new state, the closure
(`none` is the nil func) and the error. -/
def gracefulListener.StopAccept (s : World) : World × Option (World → Except Fault World) × Err :=
  if s.ln.once.done then
    (s, none, some .ErrAlreadyStopped)
  else
    match s.heap.make with
    | (h1, g) =>
      ({ heap := h1, ln := { s.ln with suspend := g, stop := 1, once := { done := true } } },
        some gracefulListener.restart, none)

/-- The struct `conn`; the embedded `net.Conn` is external and `parent` is the
shared `World`. -/
structure conn where
  once : Once
  deriving DecidableEq, Repr

/-- `func (c *conn) Close() error`, with `err` the result of `c.Conn.Close()`
and `closeConn` the callback `c.parent.closeConn` acting on the parent. -/
def conn.Close {σ : Type} (closeConn : σ → Except Fault σ) (c : conn) (err : Err) (parent : σ) :
    Except Fault (conn × σ × Err) :=
  if err ≠ some .EINTR then
    match c.once.Do closeConn parent with
    | .ok (o, p1) => .ok ({ once := o }, p1, err)
    | .error e => .error e
  else .ok (c, parent, err)

/-- A sequence of `Close` calls on one wrapper, with the given underlying
results. -/
def conn.CloseAll {σ : Type} (closeConn : σ → Except Fault σ) (c : conn) (rs : List Err)
    (parent : σ) : Except Fault (conn × σ) :=
  match rs with
  | [] => .ok (c, parent)
  | r :: rest =>
    match conn.Close closeConn c r parent with
    | .ok (c1, p1, _) => conn.CloseAll closeConn c1 rest p1
    | .error e => .error e

/-- The part of `Accept` before the call to the wrapped listener: the channel
the caller has to receive from first, if the stop flag is set. -/
def gracefulListener.acceptGate (s : World) : Option Chan :=
  if s.ln.stop ≠ 0 then some s.ln.suspend else none

/-- The part of `Accept` from the call `ln.Listener.Accept()` on, with `err`
the error of that call (`none`: a connection was accepted). Returns the
wrapper, if any, and the error. -/
def gracefulListener.acceptFinish (s : World) (err : Err) : World × Option conn × Err :=
  match err with
  | some e => (s, none, some e)
  | none => ({ s with ln := { s.ln with w := s.ln.w.Add } }, some { once := { done := false } }, none)

/-! ## Concurrent executions

A state of the whole program: the shared memory, the wrappers handed out by
`Accept`, and the calls in progress, each at one point of its code. A step
performs one atomic operation of one call. -/

/-- A call in progress, or a goroutine, at a point of the source. -/
inductive Thread where
  /-- In `waiter.Done`, after the decrement returned `newCount`. -/
  | doneCheck (newCount : Nat)
  /-- The goroutine of `GracefulShutdown`, about to call `ln.w.Wait()`. -/
  | waitEnter (done : Chan)
  /-- In `Wait`, after the increment returned `waiting`. -/
  | waitCheck (waiting : Nat) (done : Chan)
  /-- In `Wait`, at the `select`. -/
  | waitSelect (done : Chan)
  /-- The goroutine after `Wait` returned, about to `close(done)`. -/
  | waitExit (done : Chan)
  /-- `GracefulShutdown` at its `select` (or at `<-done` when `timeout ≤ 0`). -/
  | gsSelect (timeout : Int) (done : Chan)
  /-- `GracefulShutdown` about to call `ln.Listener.Close()`. -/
  | gsClose
  /-- `GracefulShutdown` returning `err`, about to run the deferred `restart`. -/
  | gsDefer (err : Err)
  /-- `GracefulShutdown` has returned `err`. -/
  | gsReturned (err : Err)
  /-- `Accept` at `<-ln.suspend`, for the channel read from the field. -/
  | acceptParked (g : Chan)
  /-- `Accept` about to call `ln.Listener.Accept()`. -/
  | acceptCall
  /-- `Accept` has returned; `ok` tells whether with a wrapper. -/
  | acceptReturned (ok : Bool) (err : Err)
  /-- A finished goroutine or call. -/
  | finished
  deriving DecidableEq, Repr

/-- The whole program. `closures` counts the `restart` closures that
`StopAccept` has returned to callers. -/
structure Sys where
  world : World
  conns : List conn
  threads : List Thread
  closures : Nat
  deriving DecidableEq, Repr

/-- What can happen next: a caller enters a public method, or a call in
progress performs its next atomic operation. -/
inductive Action where
  /-- A caller enters `Accept`. -/
  | Accept
  /-- A caller enters `Close` of wrapper `i`; the wrapped `Close` returns `err`. -/
  | connClose (i : Nat) (err : Err)
  /-- A caller runs `StopAccept`. -/
  | StopAccept
  /-- A caller invokes a closure that `StopAccept` returned. -/
  | restart
  /-- A caller runs `Close` (or `Shutdown`); the wrapped `Close` returns `err`. -/
  | Close (err : Err)
  /-- A caller enters `GracefulShutdown(timeout)`. -/
  | GracefulShutdown (timeout : Int)
  /-- Thread `tid` performs its next operation; `err` is the result of the call
  to the wrapped listener, when the operation is one. -/
  | step (tid : Nat) (err : Err)
  /-- The timer of the `select` of thread `tid` fires and its case is taken. -/
  | timer (tid : Nat)
  deriving DecidableEq, Repr

/-- Start a new thread. -/
def Sys.spawn (s : Sys) (t : Thread) : Sys :=
  { s with threads := s.threads ++ [t] }

/-- Move thread `tid` to its next point. -/
def Sys.goto (s : Sys) (tid : Nat) (t : Thread) : Sys :=
  { s with threads := s.threads.set tid t }

/-- Replace the channel heap. -/
def Sys.setHeap (s : Sys) (h : Heap) : Sys :=
  { s with world := { s.world with heap := h } }

/-- Replace the waiter. -/
def Sys.setWaiter (s : Sys) (w : waiter) : Sys :=
  { s with world := { s.world with ln := { s.world.ln with w := w } } }

/-- The callback `c.parent.closeConn` up to and including the decrement of
`Done`; the rest of `Done` is a thread of its own. (`sync.Once` holds its lock
while the callback runs, so no other `Close` of the wrapper can enter it.) -/
def Sys.closeConnBegin (s : Sys) : Except Fault Sys :=
  match s.world.ln.w.doneDecrement with
  | (w1, newCount) => .ok ((s.setWaiter w1).spawn (.doneCheck newCount))

/-- The next operation of a thread at point `t`. -/
def Sys.stepThread (s : Sys) (tid : Nat) (t : Thread) (err : Err) : Except Fault Sys :=
  match t with
  | .doneCheck newCount =>
    match s.world.ln.w.doneCheck s.world.heap newCount with
    | .ok h1 => .ok ((s.setHeap h1).goto tid .finished)
    | .error e => .error e
  | .waitEnter d =>
    match s.world.ln.w.waitRegister with
    | (w1, waiting) => .ok ((s.setWaiter w1).goto tid (.waitCheck waiting d))
  | .waitCheck waiting d =>
    match s.world.ln.w.waitCheck s.world.heap waiting with
    | .ok h1 => .ok ((s.setHeap h1).goto tid (.waitSelect d))
    | .error e => .error e
  | .waitSelect d =>
    if s.world.ln.w.waitReady s.world.heap then .ok (s.goto tid (.waitExit d))
    else .error .blocked
  | .waitExit d =>
    match s.world.heap.close d with
    | .ok h1 => .ok ((s.setHeap h1).goto tid .finished)
    | .error e => .error e
  | .gsSelect _ d =>
    if s.world.heap.isClosed d then .ok (s.goto tid .gsClose) else .error .blocked
  | .gsClose =>
    match gracefulListener.Close s.world err with
    | (w1, e) => .ok ({ s with world := w1 }.goto tid (.gsDefer e))
  | .gsDefer e =>
    match gracefulListener.restart s.world with
    | .ok w1 => .ok ({ s with world := w1 }.goto tid (.gsReturned e))
    | .error f => .error f
  | .acceptParked g =>
    if s.world.heap.isClosed g then .ok (s.goto tid .acceptCall) else .error .blocked
  | .acceptCall =>
    match gracefulListener.acceptFinish s.world err with
    | (w1, some c, e) =>
      .ok ({ s with world := w1, conns := s.conns ++ [c] }.goto tid (.acceptReturned true e))
    | (w1, none, e) => .ok ({ s with world := w1 }.goto tid (.acceptReturned false e))
  | .gsReturned _ => .error .blocked
  | .acceptReturned _ _ => .error .blocked
  | .finished => .error .blocked

/-- One step of the program. A panic ends the run (`.error`); the deferred
`restart` that Go still runs while a panic unwinds `GracefulShutdown` is not
observed by anyone. -/
def Sys.step (s : Sys) (a : Action) : Except Fault Sys :=
  match a with
  | .Accept =>
    match gracefulListener.acceptGate s.world with
    | some g => .ok (s.spawn (.acceptParked g))
    | none => .ok (s.spawn .acceptCall)
  | .connClose i err =>
    match s.conns[i]? with
    | none => .error .blocked
    | some c =>
      match conn.Close Sys.closeConnBegin c err s with
      | .ok (c1, s1, _) => .ok { s1 with conns := s1.conns.set i c1 }
      | .error e => .error e
  | .StopAccept =>
    match gracefulListener.StopAccept s.world with
    | (w1, some _, _) => .ok { s with world := w1, closures := s.closures + 1 }
    | (w1, none, _) => .ok { s with world := w1 }
  | .restart =>
    if s.closures = 0 then .error .blocked
    else
      match gracefulListener.restart s.world with
      | .ok w1 => .ok { s with world := w1 }
      | .error e => .error e
  | .Close err => .ok { s with world := (gracefulListener.Close s.world err).1 }
  | .GracefulShutdown timeout =>
    match gracefulListener.StopAccept s.world with
    | (w1, _, some e) => .ok ({ s with world := w1 }.spawn (.gsReturned (some e)))
    | (w1, _, none) =>
      match w1.heap.make with
      | (h1, d) =>
        .ok ((({ s with world := { w1 with heap := h1 } }).spawn (.gsSelect timeout d)).spawn
          (.waitEnter d))
  | .step tid err =>
    match s.threads[tid]? with
    | none => .error .blocked
    | some t => s.stepThread tid t err
  | .timer tid =>
    match s.threads[tid]? with
    | some (.gsSelect timeout _) =>
      if 0 < timeout then
        match s.world.ln.w.CancelWait s.world.heap with
        | .ok h1 => .ok ((s.setHeap h1).goto tid (.gsDefer (some .ErrTimeout)))
        | .error e => .error e
      else .error .blocked
    | _ => .error .blocked

/-- A run: the steps of a schedule, one after the other. -/
def Sys.run (s : Sys) (acts : List Action) : Except Fault Sys :=
  match acts with
  | [] => .ok s
  | a :: rest =>
    match s.step a with
    | .ok s1 => s1.run rest
    | .error e => .error e

/-- The program right after `Upgrade` of a listener that was never closed. -/
def Sys.init : Sys :=
  { world := Upgrade [] { closeLog := [] }, conns := [], threads := [], closures := 0 }

/-- The number of wrappers on which no `Close` call has yet had a result other
than `EINTR`. -/
def Sys.live (s : Sys) : Nat :=
  s.conns.countP fun c => !c.once.done

/-- The number of callers that are in `Wait`: registered and not yet released
from its `select`. -/
def Sys.inWait (s : Sys) : Nat :=
  s.threads.countP fun t =>
    match t with
    | .waitCheck _ _ => true
    | .waitSelect _ => true
    | _ => false

/-! ## Scenario drivers -/

/-- Whether the channel exists and is not closed. -/
def Heap.isOpen (h : Heap) (ch : Chan) : Bool :=
  match ch with
  | none => false
  | some a => h[a]? == some false

/-- The listener accepts: no suspension is active. -/
def gracefulListener.Accepting (s : World) : Prop :=
  s.ln.once.done = false ∧ s.ln.stop = 0

/-- One suspend/resume round trip: `StopAccept`, then the returned closure
invoked once. -/
def gracefulListener.cycle (s : World) : Except Fault World :=
  match gracefulListener.StopAccept s with
  | (s1, some restart, _) => restart s1
  | (_, none, _) => .error .blocked

/-- The round trip `n` times in a row. -/
def gracefulListener.cycles (n : Nat) (s : World) : Except Fault World :=
  match n with
  | 0 => .ok s
  | k + 1 =>
    match gracefulListener.cycle s with
    | .ok s1 => gracefulListener.cycles k s1
    | .error e => .error e

/-- A schedule: one connection is accepted, `GracefulShutdown(200)` is entered,
its goroutine registers in `Wait` and reaches the `select`, the timer fires
(`CancelWait`), the goroutine leaves `Wait` and ends, and the deferred
`restart` runs: `GracefulShutdown` has returned `ErrTimeout`. -/
def timedOutOnce : List Action :=
  [.Accept, .step 0 none, .GracefulShutdown 200, .step 2 none, .step 2 none, .timer 1,
    .step 2 none, .step 2 none, .step 1 none]

/-- The count matches the live wrappers modulo `2^64`. -/
def Sys.Counted (s : Sys) : Prop :=
  s.world.ln.w.c = s.live % 2 ^ 64

/-- A schedule: after `timedOutOnce`, `GracefulShutdown(-1)` is entered; its
goroutine registers in `Wait`, finds the cancel gate closed at the `select`
and ends; `GracefulShutdown` receives from `done`, closes the wrapped listener
(which returns nil), runs `restart` and returns. -/
def secondShutdownNoTimeout : List Action :=
  timedOutOnce ++ [.GracefulShutdown (-1), .step 4 none, .step 4 none, .step 4 none,
    .step 4 none, .step 3 none, .step 3 none, .step 3 none]

/-- A schedule: after `timedOutOnce`, `GracefulShutdown(200)` is entered and
its run is the same as in `secondShutdownNoTimeout`. -/
def secondShutdownDoneFirst : List Action :=
  timedOutOnce ++ [.GracefulShutdown 200, .step 4 none, .step 4 none, .step 4 none,
    .step 4 none, .step 3 none, .step 3 none, .step 3 none]

/-- A schedule: after `timedOutOnce`, `GracefulShutdown(200)` is entered and
its timer fires. -/
def secondShutdownTimerFirst : List Action :=
  timedOutOnce ++ [.GracefulShutdown 200, .timer 3]

/-- A schedule: after `timedOutOnce`, the connection is closed (`Done` runs to
its end), a second connection is accepted and its `Close` enters `Done`. -/
def closeAcceptClose : List Action :=
  timedOutOnce ++ [.connClose 0 none, .step 3 none, .Accept, .step 4 none, .connClose 1 none]

/-- A schedule: one connection is accepted, `GracefulShutdown(-1)` is entered,
its goroutine does the increment of `Wait`, then the connection is closed and
`Done` runs to its end. -/
def doneBetweenWaitSteps : List Action :=
  [.Accept, .step 0 none, .GracefulShutdown (-1), .step 2 none, .connClose 0 none, .step 3 none]

/-- The actions of the drain scenario besides the one `GracefulShutdown` call:
`Close` calls on wrappers and steps of calls in progress. -/
def Action.quiet : Action → Bool
  | .connClose _ _ => true
  | .step _ _ => true
  | .timer _ => true
  | _ => false

/-- `n` connections accepted one after the other. -/
def acceptN : Nat → List Action
  | 0 => []
  | k + 1 => acceptN k ++ [.Accept, .step k none]

/-- The program after `n` connections were accepted one after the other on a
fresh listener. -/
def Sys.accepted (n : Nat) : Sys :=
  { world :=
      { heap := [false, false]
        ln := { Listener := { closeLog := [] },
                w := { c := n % 2 ^ 64, waiting := 0, done := some 0, cancel := some 1 },
                once := { done := false }, stop := 0, suspend := none } }
    conns := List.replicate n { once := { done := false } }
    threads := List.replicate n (.acceptReturned true none)
    closures := 0 }

/-- Threads of a `GracefulShutdown` call itself (not its goroutine). -/
def Thread.isGS : Thread → Bool
  | .gsSelect _ _ => true
  | .gsClose => true
  | .gsDefer _ => true
  | .gsReturned _ => true
  | _ => false

/-- `GracefulShutdown` threads past the call to the wrapped `Close`. -/
def Thread.afterClose : Thread → Bool
  | .gsDefer _ => true
  | .gsReturned _ => true
  | _ => false

/-- Threads that exist before `GracefulShutdown` is entered in the drain
scenario. -/
def Thread.passive : Thread → Bool
  | .doneCheck _ => true
  | .acceptReturned _ _ => true
  | .finished => true
  | _ => false

/-- What the drain scenario guarantees at each point of a thread, for the
current count `c` and record `log` of `Close` results of the wrapped listener. -/
def Thread.drainOK (c : Nat) (log : List Err) : Thread → Prop
  | .doneCheck newCount => newCount = 0 → c = 0
  | .waitEnter d => d = some 3
  | .waitCheck _ d => d = some 3
  | .waitSelect d => d = some 3
  | .waitExit d => d = some 3 ∧ c = 0
  | .gsSelect timeout d => timeout ≤ 0 ∧ d = some 3
  | .gsClose => c = 0
  | .gsDefer e => c = 0 ∧ e ∈ log
  | .gsReturned e => c = 0 ∧ e ∈ log
  | .acceptParked _ => False
  | .acceptCall => False
  | .acceptReturned _ _ => True
  | .finished => True

/-- Invariant of the drain scenario before `GracefulShutdown` is entered. -/
def Sys.DrainingBefore (n : Nat) (s : Sys) : Prop :=
  s.world.heap = [false, false] ∧ s.world.ln.w.done = some 0 ∧ s.world.ln.w.cancel = some 1 ∧
  s.world.ln.w.waiting = 0 ∧ s.world.ln.w.c = s.live ∧ s.conns.length = n ∧
  s.world.ln.once.done = false ∧ s.world.ln.Listener.closeLog = [] ∧
  ∀ t ∈ s.threads, t.passive = true ∧ t.drainOK s.world.ln.w.c []

/-- Invariant of the drain scenario once `GracefulShutdown` is entered: the
done gate, the goroutine's `done` channel and the record of `Close` calls on
the wrapped listener are only touched when the count is zero. -/
def Sys.Draining (n : Nat) (s : Sys) : Prop :=
  s.world.heap.length = 4 ∧ s.world.ln.w.done = some 0 ∧ s.world.ln.w.cancel = some 1 ∧
  s.world.ln.suspend = some 2 ∧ s.world.heap.isClosed (some 1) = false ∧
  s.world.ln.w.c = s.live ∧ s.conns.length = n ∧
  (s.world.heap.isClosed (some 0) = true → s.world.ln.w.c = 0) ∧
  (s.world.heap.isClosed (some 3) = true → s.world.ln.w.c = 0) ∧
  (s.world.ln.Listener.closeLog ≠ [] → s.world.ln.w.c = 0) ∧
  s.threads.countP Thread.isGS = 1 ∧
  s.world.ln.Listener.closeLog.length = s.threads.countP Thread.afterClose ∧
  ∀ t ∈ s.threads, t.drainOK s.world.ln.w.c s.world.ln.Listener.closeLog

/-- A state of the drain scenario with `n` wrappers of which the first `j`
have notified, the count being `n - j`. -/
def Sys.mid (n j : Nat) (heap : Heap) (waiting : Nat) (once : Bool) (stop : Nat) (suspend : Chan)
    (log : List Err) (threads : List Thread) : Sys :=
  { world :=
      { heap := heap
        ln := { Listener := { closeLog := log },
                w := { c := n - j, waiting := waiting, done := some 0, cancel := some 1 },
                once := { done := once }, stop := stop, suspend := suspend } }
    conns := List.replicate j { once := { done := true } }
      ++ List.replicate (n - j) { once := { done := false } }
    threads := threads
    closures := 0 }

/-- The wrappers `j`, `j + 1`, ... (`m` of them) closed one after the other with
result nil, each `Done` running to its end before the next `Close`; `tid` is
the number of threads at the start. -/
def closeRun (j tid : Nat) : Nat → List Action
  | 0 => []
  | m + 1 => .connClose j none :: .step tid none :: closeRun (j + 1) (tid + 1) m

/-- The steps of a `GracefulShutdown` that is thread `g`, with its goroutine
`g + 1`, up to the `select` of `Wait`. -/
def shutdownEnter (timeout : Int) (g : Nat) : List Action :=
  [.GracefulShutdown timeout, .step (g + 1) none, .step (g + 1) none]

/-- The steps of a `GracefulShutdown` that is thread `g`, with its goroutine
`g + 1`, from the `select` of `Wait` on; `e` is the result of the wrapped
listener's `Close`. -/
def shutdownLeave (g : Nat) (e : Err) : List Action :=
  [.step (g + 1) none, .step (g + 1) none, .step g none, .step g e, .step g none]

/-! ## The connection wrapper reports once -/

theorem conn_CloseAll_used {σ : Type} (closeConn : σ → Except Fault σ) (rs : List Err) (p : σ) :
    conn.CloseAll closeConn { once := { done := true } } rs p
      = .ok ({ once := { done := true } }, p) := by
  induction rs with
  | nil => rfl
  | cons r rest ih =>
    by_cases hr : r = some GoError.EINTR
    · simp [conn.CloseAll, conn.Close, hr, ih]
    · simp [conn.CloseAll, conn.Close, hr, Once.Do, ih]

theorem conn_CloseAll_fresh {σ : Type} (closeConn : σ → Except Fault σ) (rs : List Err) (p : σ) :
    conn.CloseAll closeConn { once := { done := false } } rs p
      = if ∃ r ∈ rs, r ≠ some GoError.EINTR then
          (closeConn p).map fun p1 => ({ once := { done := true } }, p1)
        else .ok ({ once := { done := false } }, p) := by
  induction rs with
  | nil => simp [conn.CloseAll]
  | cons r rest ih =>
    by_cases hr : r = some GoError.EINTR
    · simp [conn.CloseAll, conn.Close, hr, ih]
    · have hex : ∃ x ∈ r :: rest, x ≠ some GoError.EINTR := ⟨r, List.mem_cons_self _ _, hr⟩
      rw [if_pos hex]
      cases hf : closeConn p with
      | error e => simp [conn.CloseAll, conn.Close, hr, Once.Do, hf, Except.map]
      | ok p1 =>
        simp [conn.CloseAll, conn.Close, hr, Once.Do, hf, Except.map, conn_CloseAll_used]

/-- C1: on a wrapper as `Accept` returns it, a `Close` call whose underlying
result is EINTR runs the notification callback zero times and changes nothing;
the first call with another result runs it exactly once; a wrapper that has
notified never runs it again; so over any sequence of underlying results the
callback (the `Done` of the parent waiter) runs once if some result is not
EINTR and never otherwise. -/
theorem C1_close_reports_done_exactly_once {σ : Type} (closeConn : σ → Except Fault σ) (p : σ) :
    (∀ c : conn, conn.Close closeConn c (some .EINTR) p = .ok (c, p, some .EINTR)) ∧
    (∀ r : Err, r ≠ some .EINTR →
      conn.Close closeConn { once := { done := false } } r p
        = (closeConn p).map fun p1 => ({ once := { done := true } }, p1, r)) ∧
    (∀ r : Err, conn.Close closeConn { once := { done := true } } r p
        = .ok ({ once := { done := true } }, p, r)) ∧
    (∀ rs : List Err, conn.CloseAll closeConn { once := { done := false } } rs p
        = if ∃ r ∈ rs, r ≠ some GoError.EINTR then
            (closeConn p).map fun p1 => ({ once := { done := true } }, p1)
          else .ok ({ once := { done := false } }, p)) ∧
    (∀ (rs : List Err) (n : Nat),
      (conn.CloseAll (fun k : Nat => .ok (k + 1)) { once := { done := false } } rs n).map Prod.snd
        = .ok (n + if ∃ r ∈ rs, r ≠ some GoError.EINTR then 1 else 0)) := by
  refine ⟨?_, ?_, ?_, ?_, ?_⟩
  · intro c
    simp [conn.Close]
  · intro r hr
    cases hf : closeConn p <;> simp [conn.Close, hr, Once.Do, hf, Except.map]
  · intro r
    by_cases hr : r = some GoError.EINTR <;> simp [conn.Close, hr, Once.Do]
  · intro rs
    exact conn_CloseAll_fresh closeConn rs p
  · intro rs n
    rw [conn_CloseAll_fresh]
    split <;> simp [Except.map]

/-- C1 at the results EINTR, nil, EINTR, nil, with a callback that counts its
calls: one notification. -/
theorem C1_close_reports_done_exactly_once_witness :
    (conn.CloseAll (fun k : Nat => .ok (k + 1)) { once := { done := false } }
        [some .EINTR, none, some .EINTR, none] 0).map Prod.snd = .ok 1 :=
  (C1_close_reports_done_exactly_once (fun k : Nat => .ok (k + 1)) 0).2.2.2.2
    [some .EINTR, none, some .EINTR, none] 0

/-! ## Suspending and resuming -/

theorem Heap.isClosed_make (h : Heap) : (h.make).1.isClosed (h.make).2 = false := by
  simp [Heap.make, Heap.isClosed, List.getD_eq_getElem?_getD]

theorem Heap.isOpen_make (h : Heap) : (h.make).1.isOpen (h.make).2 = true := by
  simp [Heap.make, Heap.isOpen]

theorem Heap.close_of_isOpen (h : Heap) (ch : Chan) (ho : h.isOpen ch = true) :
    ∃ a, ch = some a ∧ a < h.length ∧ h.close ch = .ok (h.set a true) := by
  cases ch with
  | none => simp [Heap.isOpen] at ho
  | some a =>
    simp only [Heap.isOpen, beq_iff_eq] at ho
    refine ⟨a, rfl, ?_, ?_⟩
    · by_contra hlt
      rw [List.getElem?_eq_none (by omega)] at ho
      cases ho
    · simp [Heap.close, ho]

theorem Heap.isClosed_set_self (h : Heap) (a : Nat) (ha : a < h.length) :
    Heap.isClosed (h.set a true) (some a) = true := by
  simp [Heap.isClosed, List.getD_eq_getElem?_getD, List.getElem?_set, ha]

theorem Heap.isClosed_set_other (h : Heap) (a : Nat) (ch : Chan) (hne : ch ≠ some a) :
    Heap.isClosed (h.set a true) ch = h.isClosed ch := by
  cases ch with
  | none => rfl
  | some b =>
    have hab : a ≠ b := fun hab => hne (by rw [hab])
    simp [Heap.isClosed, List.getD_eq_getElem?_getD, List.getElem?_set, hab]

theorem Heap.isClosed_make_old (h : Heap) (ch : Chan) :
    (h.make).1.isClosed ch = h.isClosed ch := by
  cases ch with
  | none => rfl
  | some b =>
    simp only [Heap.make, Heap.isClosed, List.getD_eq_getElem?_getD]
    by_cases hb : b < h.length
    · rw [List.getElem?_append_left hb]
    · rcases Nat.lt_or_ge h.length b with hgt | hle
      · rw [List.getElem?_eq_none (by simp; omega), List.getElem?_eq_none (by omega)]
      · have hbe : b = h.length := by omega
        subst hbe
        simp

theorem StopAccept_of_fresh (s : World) (hf : s.ln.once.done = false) :
    gracefulListener.StopAccept s
      = ({ heap := s.heap ++ [false],
           ln := { s.ln with suspend := some s.heap.length, stop := 1, once := { done := true } } },
         some gracefulListener.restart, none) := by
  simp [gracefulListener.StopAccept, hf, Heap.make]

theorem StopAccept_of_used (s : World) (hu : s.ln.once.done = true) :
    gracefulListener.StopAccept s = (s, none, some .ErrAlreadyStopped) := by
  simp [gracefulListener.StopAccept, hu]

theorem restart_after_StopAccept (s : World) :
    gracefulListener.restart
        { heap := s.heap ++ [false],
          ln := { s.ln with suspend := some s.heap.length, stop := 1, once := { done := true } } }
      = .ok { heap := (s.heap ++ [false]).set s.heap.length true,
              ln := { s.ln with suspend := some s.heap.length, stop := 0,
                                once := { done := false } } } := by
  simp [gracefulListener.restart, Heap.close]

theorem cycle_of_fresh (s : World) (hf : s.ln.once.done = false) :
    gracefulListener.cycle s
      = .ok { heap := (s.heap ++ [false]).set s.heap.length true,
              ln := { s.ln with suspend := some s.heap.length, stop := 0,
                                once := { done := false } } } := by
  simp only [gracefulListener.cycle, StopAccept_of_fresh s hf, restart_after_StopAccept]

theorem isClosed_after_cycle (h : Heap) (ch : Chan) (hne : ch ≠ some h.length) :
    Heap.isClosed ((h ++ [false]).set h.length true) ch = h.isClosed ch := by
  rw [Heap.isClosed_set_other _ _ _ hne]
  exact Heap.isClosed_make_old h ch

theorem cycles_of_accepting (n : Nat) (s : World) (hA : gracefulListener.Accepting s) :
    ∃ s1, gracefulListener.cycles n s = .ok s1 ∧ gracefulListener.Accepting s1 ∧
      s1.ln.w = s.ln.w ∧ s1.ln.Listener = s.ln.Listener ∧ s.heap.length ≤ s1.heap.length ∧
      ∀ a, a < s.heap.length → s1.heap.isClosed (some a) = s.heap.isClosed (some a) := by
  induction n generalizing s with
  | zero => exact ⟨s, rfl, hA, rfl, rfl, le_refl _, fun _ _ => rfl⟩
  | succ k ih =>
    have hA1 : gracefulListener.Accepting
        { heap := (s.heap ++ [false]).set s.heap.length true,
          ln := { s.ln with suspend := some s.heap.length, stop := 0,
                            once := { done := false } } } := ⟨rfl, rfl⟩
    obtain ⟨s2, hrun, hacc, hw, hl, hlen, hold⟩ := ih _ hA1
    refine ⟨s2, ?_, hacc, hw, hl, ?_, ?_⟩
    · simp only [gracefulListener.cycles, cycle_of_fresh s hA.1]
      exact hrun
    · simp at hlen
      omega
    · intro a ha
      rw [hold a (by simp; omega)]
      exact isClosed_after_cycle s.heap (some a) (by simp; omega)

/-- C5: after a successful `StopAccept` (stop flag set, a fresh open suspend
gate, guard consumed), and in any state where the guard is still consumed
because no resume closure has run, a further `StopAccept` returns
`(nil, ErrAlreadyStopped)` and the state it leaves is the state it found. -/
theorem C5_StopAccept_twice_already_stopped (s0 : World) (h0 : s0.ln.once.done = false) :
    ∃ s1 restart, gracefulListener.StopAccept s0 = (s1, some restart, none) ∧
      s1.ln.stop = 1 ∧ s1.heap.isOpen s1.ln.suspend = true ∧ s1.ln.once.done = true ∧
      gracefulListener.StopAccept s1 = (s1, none, some .ErrAlreadyStopped) ∧
      ∀ s : World, s.ln.once.done = true →
        gracefulListener.StopAccept s = (s, none, some .ErrAlreadyStopped) := by
  refine ⟨_, _, StopAccept_of_fresh s0 h0, rfl, ?_, rfl, StopAccept_of_used _ rfl,
    fun s hs => StopAccept_of_used s hs⟩
  exact Heap.isOpen_make s0.heap

/-- C5 on the listener that `Upgrade` returns. -/
theorem C5_StopAccept_twice_already_stopped_witness :
    (Upgrade [] { closeLog := [] }).ln.once.done = false ∧
    ∃ s1 restart,
      gracefulListener.StopAccept (Upgrade [] { closeLog := [] }) = (s1, some restart, none) ∧
      s1.ln.stop = 1 ∧ s1.heap.isOpen s1.ln.suspend = true ∧ s1.ln.once.done = true ∧
      gracefulListener.StopAccept s1 = (s1, none, some .ErrAlreadyStopped) ∧
      ∀ s : World, s.ln.once.done = true →
        gracefulListener.StopAccept s = (s, none, some .ErrAlreadyStopped) :=
  ⟨rfl, C5_StopAccept_twice_already_stopped (Upgrade [] { closeLog := [] }) rfl⟩

/-- C6: from an accepting listener `StopAccept` succeeds and gives the
suspended state (stop flag 1, a suspend gate that did not exist before and is
open, waiter as it was); the returned closure, invoked once, closes that gate,
clears the stop flag and re-arms the guard, with the waiter and every channel
that existed before as they were, so that `StopAccept` succeeds again; and any
number `n` of such round trips in a row succeeds and ends accepting, with the
waiter and the earlier channels unchanged. -/
theorem C6_suspend_resume_round_trip (s : World) (hA : gracefulListener.Accepting s) (n : Nat) :
    (∃ restart s1 s2, gracefulListener.StopAccept s = (s1, some restart, none) ∧
      s1.ln.stop = 1 ∧ s1.ln.suspend = some s.heap.length ∧
      s1.heap.isOpen s1.ln.suspend = true ∧ s1.ln.w = s.ln.w ∧
      restart s1 = .ok s2 ∧ s2.heap.isClosed s1.ln.suspend = true ∧ s2.ln.stop = 0 ∧
      s2.ln.once.done = false ∧ s2.ln.w = s.ln.w ∧
      (∀ a, a < s.heap.length → s2.heap.isClosed (some a) = s.heap.isClosed (some a)) ∧
      (gracefulListener.StopAccept s2).2.2 = none) ∧
    (∃ sn, gracefulListener.cycles n s = .ok sn ∧ gracefulListener.Accepting sn ∧
      sn.ln.w = s.ln.w ∧
      (∀ a, a < s.heap.length → sn.heap.isClosed (some a) = s.heap.isClosed (some a)) ∧
      (gracefulListener.StopAccept sn).2.2 = none) := by
  constructor
  · refine ⟨_, _, _, StopAccept_of_fresh s hA.1, rfl, rfl, Heap.isOpen_make s.heap, rfl,
      restart_after_StopAccept s, ?_, rfl, rfl, rfl, ?_, ?_⟩
    · exact Heap.isClosed_set_self _ _ (by simp)
    · intro a ha
      exact isClosed_after_cycle s.heap (some a) (by simp; omega)
    · rw [StopAccept_of_fresh _ rfl]
  · obtain ⟨sn, hrun, hacc, hw, _, _, hold⟩ := cycles_of_accepting n s hA
    refine ⟨sn, hrun, hacc, hw, hold, ?_⟩
    rw [StopAccept_of_fresh sn hacc.1]

/-- C6 on the listener that `Upgrade` returns, for three round trips. -/
theorem C6_suspend_resume_round_trip_witness :
    gracefulListener.Accepting (Upgrade [] { closeLog := [] }) ∧
    ∃ sn, gracefulListener.cycles 3 (Upgrade [] { closeLog := [] }) = .ok sn ∧
      gracefulListener.Accepting sn ∧ sn.ln.w = (Upgrade [] { closeLog := [] }).ln.w :=
  ⟨⟨rfl, rfl⟩,
    let ⟨sn, hrun, hacc, hw, _⟩ :=
      (C6_suspend_resume_round_trip (Upgrade [] { closeLog := [] }) ⟨rfl, rfl⟩ 3).2
    ⟨sn, hrun, hacc, hw⟩⟩

/-- C7: when the suspension guard is consumed (a `StopAccept` succeeded and its
closure has not run), entering `GracefulShutdown` with any timeout returns
`ErrAlreadyStopped` in that same step: the shared state (the record of `Close`
calls on the wrapped listener, the waiter, every channel, the stop flag and
the suspend gate) is what it was, no goroutine is started, and the returned
call has no further step. -/
theorem C7_GracefulShutdown_while_suspended (s : Sys) (timeout : Int)
    (hu : s.world.ln.once.done = true) :
    ∃ s1, s.step (.GracefulShutdown timeout) = .ok s1 ∧
      s1.world = s.world ∧ s1.conns = s.conns ∧ s1.closures = s.closures ∧
      s1.threads = s.threads ++ [.gsReturned (some .ErrAlreadyStopped)] ∧
      ∀ tid err, s1.stepThread tid (.gsReturned (some .ErrAlreadyStopped)) err
        = .error .blocked := by
  refine ⟨s.spawn (.gsReturned (some .ErrAlreadyStopped)), ?_, rfl, rfl, rfl, rfl, ?_⟩
  · simp [Sys.step, StopAccept_of_used s.world hu]
  · intro tid err
    rfl

/-- C7 right after `Upgrade` and a successful `StopAccept`, with no timeout. -/
theorem C7_GracefulShutdown_while_suspended_witness :
    ∃ s s1, Sys.init.step .StopAccept = .ok s ∧ s.world.ln.once.done = true ∧
      s.step (.GracefulShutdown (-1)) = .ok s1 ∧ s1.world = s.world ∧
      s1.threads = [.gsReturned (some .ErrAlreadyStopped)] ∧
      s1.world.ln.Listener.closeLog = [] :=
  let s : Sys :=
    { world := (gracefulListener.StopAccept (Upgrade [] { closeLog := [] })).1,
      conns := [], threads := [], closures := 1 }
  let ⟨s1, hstep, hw, _, _, ht, _⟩ := C7_GracefulShutdown_while_suspended s (-1) rfl
  ⟨s, s1, rfl, rfl, hstep, hw, ht, by rw [hw]; rfl⟩

/-! ## `Done` -/

theorem Heap.isClosed_of_isOpen (h : Heap) (ch : Chan) (ho : h.isOpen ch = true) :
    h.isClosed ch = false := by
  cases ch with
  | none => rfl
  | some a =>
    simp only [Heap.isOpen, beq_iff_eq] at ho
    simp [Heap.isClosed, List.getD_eq_getElem?_getD, ho]

theorem uint64_decrement (c : Nat) (h1 : 1 ≤ c) (h2 : c < 2 ^ 64) :
    (2 ^ 64 - 1 + c) % 2 ^ 64 = c - 1 := by
  omega

/-- C10 (amended): for a waiter with `1 ≤ count` whose done gate is open,
`Done` lowers the count by one and closes the done gate exactly when the new
count is zero and `waiting` is not zero, that is when some `Wait` has
registered since the last `Reset`, whether or not it is still blocked; in
every other case the heap is untouched, and no other channel and no other
field of the waiter ever changes. -/
theorem C10_Done_closes_iff_zero_and_registered (w : waiter) (h : Heap)
    (hc1 : 1 ≤ w.c) (hc2 : w.c < 2 ^ 64) (ho : h.isOpen w.done = true) :
    ∃ h1, w.Done h = .ok ({ w with c := w.c - 1 }, h1) ∧
      (h1.isClosed w.done = true ↔ (w.c - 1 = 0 ∧ w.waiting ≠ 0)) ∧
      (¬ (w.c - 1 = 0 ∧ w.waiting ≠ 0) → h1 = h) ∧
      ∀ ch, ch ≠ w.done → h1.isClosed ch = h.isClosed ch := by
  have hdec := uint64_decrement w.c hc1 hc2
  have hcl := Heap.isClosed_of_isOpen h w.done ho
  obtain ⟨a, hda, halt, hclose⟩ := Heap.close_of_isOpen h w.done ho
  by_cases hz : w.c - 1 = 0 ∧ w.waiting ≠ 0
  · refine ⟨h.set a true, ?_, ?_, ?_, ?_⟩
    · simp only [waiter.Done, waiter.doneDecrement, waiter.doneCheck, hdec]
      simp [hz.1, hz.2, hclose]
    · rw [hda]
      simp [Heap.isClosed_set_self h a halt, hz.1, hz.2]
    · intro hn
      exact absurd hz hn
    · intro ch hne
      exact Heap.isClosed_set_other h a ch (by rw [← hda]; exact hne)
  · refine ⟨h, ?_, ?_, ?_, ?_⟩
    · simp only [waiter.Done, waiter.doneDecrement, waiter.doneCheck, hdec]
      by_cases h0 : w.c - 1 = 0
      · have hw : w.waiting = 0 := by
          by_contra hw
          exact hz ⟨h0, hw⟩
        simp [h0, hw]
      · simp [h0]
    · simp [hcl, hz]
    · intro _
      rfl
    · intro ch _
      rfl

/-- C10 (amended) at count 1 with one registration and an open done gate. -/
theorem C10_Done_closes_iff_zero_and_registered_witness :
    ∃ h1, waiter.Done { c := 1, waiting := 1, done := some 0, cancel := some 1 } [false, false]
        = .ok ({ c := 0, waiting := 1, done := some 0, cancel := some 1 }, h1) ∧
      h1.isClosed (some 0) = true :=
  let ⟨h1, hd, hiff, _, _⟩ := C10_Done_closes_iff_zero_and_registered
    { c := 1, waiting := 1, done := some 0, cancel := some 1 } [false, false]
    (le_refl 1) (by norm_num) rfl
  ⟨h1, hd, hiff.mpr ⟨rfl, by decide⟩⟩

/-- C10 as stated fails: after a `GracefulShutdown` that timed out, the count
is 1, the done gate is open and no caller is in `Wait` (the only one was
released by the cancel gate), yet `Done` brings the count to 0 and closes the
done gate. -/
theorem C10_counterexample :
    (Sys.init.run timedOutOnce).map (fun s =>
        (s.world.ln.w.c, s.inWait, s.world.heap.isClosed s.world.ln.w.done,
          (s.world.ln.w.Done s.world.heap).map fun r => (r.1.c, r.2.isClosed r.1.done)))
      = .ok (1, 0, false, .ok (0, true)) := by
  rfl

/-! ## The count is the number of live wrappers -/

theorem Sys.run_append (s : Sys) (xs ys : List Action) :
    s.run (xs ++ ys) = match s.run xs with
      | .ok s1 => s1.run ys
      | .error e => .error e := by
  induction xs generalizing s with
  | nil => rfl
  | cons a rest ih =>
    simp only [List.cons_append, Sys.run]
    cases s.step a with
    | ok s1 => exact ih s1
    | error e => rfl

theorem live_set_done (l : List conn) (i : Nat) (c : conn) (hi : l[i]? = some c)
    (hc : c.once.done = false) :
    List.countP (fun c => !c.once.done) (l.set i { once := { done := true } }) + 1
      = List.countP (fun c => !c.once.done) l := by
  obtain ⟨hlt, hget⟩ := List.getElem?_eq_some_iff.mp hi
  rw [List.countP_set _ _ _ _ hlt]
  have hle := List.boole_getElem_le_countP (fun c : conn => !c.once.done) l i hlt
  simp only [hget, hc, Bool.not_false, if_true] at hle ⊢
  simp
  omega

theorem live_set_same (l : List conn) (i : Nat) (c : conn) (hi : l[i]? = some c) :
    l.set i c = l := by
  induction l generalizing i with
  | nil => rfl
  | cons x rest ih =>
    cases i with
    | zero =>
      simp at hi
      simp [hi]
    | succ j =>
      simp at hi
      simp [ih j hi]

theorem Sys.step_connClose (s : Sys) (i : Nat) (err : Err) (c : conn) (hi : s.conns[i]? = some c) :
    s.step (.connClose i err) =
      if err ≠ some .EINTR ∧ c.once.done = false then
        .ok { world := { s.world with ln := { s.world.ln with w := s.world.ln.w.doneDecrement.1 } },
              conns := s.conns.set i { once := { done := true } },
              threads := s.threads ++ [.doneCheck s.world.ln.w.doneDecrement.2],
              closures := s.closures }
      else .ok s := by
  by_cases he : err = some .EINTR
  · simp [Sys.step, hi, conn.Close, he, live_set_same _ _ _ hi]
  · cases hd : c.once.done with
    | true =>
      simp [Sys.step, hi, conn.Close, he, Once.Do, hd]
      have : c = { once := { done := true } } := by
        cases c with
        | mk o => cases o with
          | mk d => simp at hd; simp [hd]
      have hc : ({ once := c.once } : conn) = c := rfl
      rw [hc, live_set_same _ _ _ hi]
    | false =>
      simp [Sys.step, hi, conn.Close, he, Once.Do, hd, Sys.closeConnBegin, Sys.setWaiter,
        Sys.spawn]


theorem uint64_succ_mod (n : Nat) : (n % 2 ^ 64 + 1) % 2 ^ 64 = (n + 1) % 2 ^ 64 := by
  omega

theorem uint64_pred_mod (n : Nat) : (2 ^ 64 - 1 + (n + 1) % 2 ^ 64) % 2 ^ 64 = n % 2 ^ 64 := by
  omega

theorem Sys.stepThread_counted (s s1 : Sys) (tid : Nat) (t : Thread) (err : Err)
    (h : s.stepThread tid t err = .ok s1) (hc : s.Counted) : s1.Counted := by
  unfold Sys.Counted Sys.live at *
  cases t with
  | doneCheck nc =>
    simp only [Sys.stepThread] at h
    split at h
    · cases h
      simpa [Sys.setHeap, Sys.goto] using hc
    · cases h
  | waitEnter d =>
    simp only [Sys.stepThread] at h
    cases h
    simpa [Sys.setWaiter, Sys.goto, waiter.waitRegister] using hc
  | waitCheck wt d =>
    simp only [Sys.stepThread] at h
    split at h
    · cases h
      simpa [Sys.setHeap, Sys.goto] using hc
    · cases h
  | waitSelect d =>
    simp only [Sys.stepThread] at h
    split at h
    · cases h
      simpa [Sys.goto] using hc
    · cases h
  | waitExit d =>
    simp only [Sys.stepThread] at h
    split at h
    · cases h
      simpa [Sys.setHeap, Sys.goto] using hc
    · cases h
  | gsSelect t d =>
    simp only [Sys.stepThread] at h
    split at h
    · cases h
      simpa [Sys.goto] using hc
    · cases h
  | gsClose =>
    simp only [Sys.stepThread, gracefulListener.Close] at h
    cases h
    simpa [Sys.goto] using hc
  | gsDefer e =>
    simp only [Sys.stepThread, gracefulListener.restart] at h
    split at h
    · rename_i w1 hw
      split at hw
      · cases hw
        cases h
        simpa [Sys.goto] using hc
      · cases hw
    · cases h
  | gsReturned e => simp [Sys.stepThread] at h
  | acceptParked g =>
    simp only [Sys.stepThread] at h
    split at h
    · cases h
      simpa [Sys.goto] using hc
    · cases h
  | acceptCall =>
    cases err with
    | none =>
      simp only [Sys.stepThread, gracefulListener.acceptFinish] at h
      cases h
      simp only [Sys.goto, waiter.Add, List.countP_append, hc]
      simp [uint64_succ_mod]
    | some e =>
      simp only [Sys.stepThread, gracefulListener.acceptFinish] at h
      cases h
      simpa [Sys.goto] using hc
  | acceptReturned ok e => simp [Sys.stepThread] at h
  | finished => simp [Sys.stepThread] at h


theorem Sys.step_counted (s s1 : Sys) (a : Action) (h : s.step a = .ok s1) (hc : s.Counted) :
    s1.Counted := by
  cases a with
  | Accept =>
    simp only [Sys.step] at h
    split at h <;> cases h <;> exact hc
  | connClose i err =>
    cases hi : s.conns[i]? with
    | none => simp [Sys.step, hi] at h
    | some c =>
      rw [Sys.step_connClose s i err c hi] at h
      split at h
      · rename_i hcond
        cases h
        have hlive := live_set_done s.conns i c hi hcond.2
        unfold Sys.Counted Sys.live at *
        simp only [waiter.doneDecrement, hc, ← hlive]
        exact uint64_pred_mod _
      · cases h
        exact hc
  | StopAccept =>
    cases hd : s.world.ln.once.done with
    | true =>
      simp only [Sys.step, StopAccept_of_used s.world hd] at h
      cases h
      exact hc
    | false =>
      simp only [Sys.step, StopAccept_of_fresh s.world hd] at h
      cases h
      exact hc
  | restart =>
    simp only [Sys.step, gracefulListener.restart] at h
    split at h
    · cases h
    · split at h
      · rename_i w1 hw
        split at hw
        · cases hw
          cases h
          exact hc
        · cases hw
      · cases h
  | Close err =>
    simp only [Sys.step, gracefulListener.Close] at h
    cases h
    exact hc
  | GracefulShutdown t =>
    cases hd : s.world.ln.once.done with
    | true =>
      simp only [Sys.step, StopAccept_of_used s.world hd] at h
      cases h
      exact hc
    | false =>
      simp only [Sys.step, StopAccept_of_fresh s.world hd] at h
      cases h
      exact hc
  | step tid err =>
    simp only [Sys.step] at h
    split at h
    · cases h
    · exact Sys.stepThread_counted s s1 tid _ err h hc
  | timer tid =>
    simp only [Sys.step, waiter.CancelWait] at h
    split at h
    · split at h
      · split at h
        · cases h
          exact hc
        · cases h
      · cases h
    · cases h

theorem Sys.run_counted (acts : List Action) (s s1 : Sys) (h : s.run acts = .ok s1)
    (hc : s.Counted) : s1.Counted := by
  induction acts generalizing s with
  | nil =>
    cases h
    exact hc
  | cons a rest ih =>
    simp only [Sys.run] at h
    split at h
    · rename_i s2 hs
      exact ih s2 h (Sys.step_counted s s2 a hs hc)
    · cases h


theorem Sys.stepThread_conns (s s1 : Sys) (tid : Nat) (t : Thread) (err : Err)
    (h : s.stepThread tid t err = .ok s1) :
    s1.conns = s.conns ∨
      (t = .acceptCall ∧ err = none ∧ s1.conns = s.conns ++ [{ once := { done := false } }]) := by
  cases t with
  | doneCheck nc =>
    simp only [Sys.stepThread] at h
    split at h <;> cases h
    exact Or.inl rfl
  | waitEnter d =>
    simp only [Sys.stepThread] at h
    cases h
    exact Or.inl rfl
  | waitCheck wt d =>
    simp only [Sys.stepThread] at h
    split at h <;> cases h
    exact Or.inl rfl
  | waitSelect d =>
    simp only [Sys.stepThread] at h
    split at h <;> cases h
    exact Or.inl rfl
  | waitExit d =>
    simp only [Sys.stepThread] at h
    split at h <;> cases h
    exact Or.inl rfl
  | gsSelect t d =>
    simp only [Sys.stepThread] at h
    split at h <;> cases h
    exact Or.inl rfl
  | gsClose =>
    simp only [Sys.stepThread, gracefulListener.Close] at h
    cases h
    exact Or.inl rfl
  | gsDefer e =>
    simp only [Sys.stepThread] at h
    split at h <;> cases h
    exact Or.inl rfl
  | gsReturned e => simp [Sys.stepThread] at h
  | acceptParked g =>
    simp only [Sys.stepThread] at h
    split at h <;> cases h
    exact Or.inl rfl
  | acceptCall =>
    cases err with
    | none =>
      simp only [Sys.stepThread, gracefulListener.acceptFinish] at h
      cases h
      exact Or.inr ⟨rfl, rfl, rfl⟩
    | some e =>
      simp only [Sys.stepThread, gracefulListener.acceptFinish] at h
      cases h
      exact Or.inl rfl
  | acceptReturned ok e => simp [Sys.stepThread] at h
  | finished => simp [Sys.stepThread] at h

theorem Sys.step_conns (s s1 : Sys) (a : Action) (h : s.step a = .ok s1) :
    s1.conns = s.conns ∨
      (∃ tid, a = .step tid none ∧ s.threads[tid]? = some .acceptCall ∧
        s1.conns = s.conns ++ [{ once := { done := false } }]) ∨
      (∃ i err, a = .connClose i err ∧ err ≠ some .EINTR ∧
        s.conns[i]? = some { once := { done := false } } ∧
        s1.conns = s.conns.set i { once := { done := true } }) := by
  cases a with
  | Accept =>
    simp only [Sys.step] at h
    split at h <;> cases h <;> exact Or.inl rfl
  | connClose i err =>
    cases hi : s.conns[i]? with
    | none => simp [Sys.step, hi] at h
    | some c =>
      rw [Sys.step_connClose s i err c hi] at h
      split at h
      · rename_i hcond
        cases h
        refine Or.inr (Or.inr ⟨i, err, rfl, hcond.1, ?_, rfl⟩)
        cases c with
        | mk o =>
          cases o with
          | mk d =>
            have hd : d = false := hcond.2
            rw [hi, hd]
      · cases h
        exact Or.inl rfl
  | StopAccept =>
    cases hd : s.world.ln.once.done with
    | true =>
      simp only [Sys.step, StopAccept_of_used s.world hd] at h
      cases h
      exact Or.inl rfl
    | false =>
      simp only [Sys.step, StopAccept_of_fresh s.world hd] at h
      cases h
      exact Or.inl rfl
  | restart =>
    simp only [Sys.step] at h
    split at h
    · cases h
    · split at h <;> cases h
      exact Or.inl rfl
  | Close err =>
    simp only [Sys.step, gracefulListener.Close] at h
    cases h
    exact Or.inl rfl
  | GracefulShutdown t =>
    cases hd : s.world.ln.once.done with
    | true =>
      simp only [Sys.step, StopAccept_of_used s.world hd] at h
      cases h
      exact Or.inl rfl
    | false =>
      simp only [Sys.step, StopAccept_of_fresh s.world hd] at h
      cases h
      exact Or.inl rfl
  | step tid err =>
    simp only [Sys.step] at h
    split at h
    · cases h
    · rename_i t ht
      rcases Sys.stepThread_conns s s1 tid t err h with h1 | ⟨h1, h2, h3⟩
      · exact Or.inl h1
      · subst h1 h2
        exact Or.inr (Or.inl ⟨tid, rfl, ht, h3⟩)
  | timer tid =>
    simp only [Sys.step] at h
    split at h
    · split at h
      · split at h <;> cases h
        exact Or.inl rfl
      · cases h
    · cases h

theorem Sys.init_counted : Sys.init.Counted := by
  rfl

theorem Sys.live_le (s : Sys) : s.live ≤ s.conns.length :=
  List.countP_le_length _

theorem Sys.count_eq_live (acts : List Action) (s : Sys) (hrun : Sys.init.run acts = .ok s)
    (hN : s.conns.length < 2 ^ 64) : s.world.ln.w.c = s.live := by
  have hc : s.world.ln.w.c = s.live % 2 ^ 64 := Sys.run_counted acts Sys.init s hrun Sys.init_counted
  have hle := s.live_le
  rw [hc]
  exact Nat.mod_eq_of_lt (by omega)

/-- C9: in every state reached from `Upgrade` by any schedule of the public
operations and their atomic steps, as long as fewer than `2^64` wrappers were
handed out, the count equals the number of wrappers on which no `Close` call
has had a result other than EINTR. A successful `Accept` raises the count by
one and hands out one new wrapper; a failed `Accept` returns the underlying
error and changes nothing else; `Close`/`Shutdown` of the listener leaves the
waiter, the channels and the wrappers as they are; a `Close` with a result
other than EINTR on a live wrapper finds the count at least one and lowers it
by one; a `Close` with EINTR, or on a wrapper that has notified, changes
nothing; and no other step changes the set of wrappers. -/
theorem C9_count_equals_live_wrappers (acts : List Action) (s : Sys)
    (hrun : Sys.init.run acts = .ok s) (hN : s.conns.length < 2 ^ 64) :
    s.world.ln.w.c = s.live ∧
    (∀ tid, s.threads[tid]? = some .acceptCall → s.conns.length + 1 < 2 ^ 64 →
      ∃ s1, s.step (.step tid none) = .ok s1 ∧ s1.world.ln.w.c = s.world.ln.w.c + 1 ∧
        s1.live = s.live + 1 ∧ s1.conns = s.conns ++ [{ once := { done := false } }] ∧
        s1.threads[tid]? = some (.acceptReturned true none)) ∧
    (∀ tid e, s.threads[tid]? = some .acceptCall →
      s.step (.step tid (some e)) = .ok (s.goto tid (.acceptReturned false (some e)))) ∧
    (∀ e, ∃ s1, s.step (.Close e) = .ok s1 ∧ s1.world.ln.w = s.world.ln.w ∧
      s1.world.heap = s.world.heap ∧ s1.conns = s.conns ∧ s1.threads = s.threads) ∧
    (∀ i err c, s.conns[i]? = some c → c.once.done = false → err ≠ some .EINTR →
      1 ≤ s.world.ln.w.c ∧
      ∃ s1, s.step (.connClose i err) = .ok s1 ∧ s1.world.ln.w.c = s.world.ln.w.c - 1 ∧
        s1.live = s.live - 1 ∧ s1.conns = s.conns.set i { once := { done := true } }) ∧
    (∀ i err c, s.conns[i]? = some c → (c.once.done = true ∨ err = some .EINTR) →
      s.step (.connClose i err) = .ok s) ∧
    (∀ a s1, s.step a = .ok s1 →
      s1.conns = s.conns ∨
      (∃ tid, a = .step tid none ∧ s.threads[tid]? = some .acceptCall ∧
        s1.conns = s.conns ++ [{ once := { done := false } }]) ∨
      (∃ i err, a = .connClose i err ∧ err ≠ some .EINTR ∧
        s.conns[i]? = some { once := { done := false } } ∧
        s1.conns = s.conns.set i { once := { done := true } })) := by
  have hc := Sys.count_eq_live acts s hrun hN
  have hle := s.live_le
  refine ⟨hc, ?_, ?_, ?_, ?_, ?_, ?_⟩
  · intro tid ht hlen
    refine ⟨Sys.goto { s with world := (gracefulListener.acceptFinish s.world none).1,
                              conns := s.conns ++ [{ once := { done := false } }] }
        tid (.acceptReturned true none), ?_, ?_, ?_, rfl, ?_⟩
    · simp only [Sys.step, ht, Sys.stepThread, gracefulListener.acceptFinish]
    · simp only [Sys.goto, gracefulListener.acceptFinish, waiter.Add, hc]
      omega
    · simp [Sys.live, Sys.goto]
    · have hlt : tid < s.threads.length := (List.getElem?_eq_some_iff.mp ht).1
      simp [Sys.goto, hlt]
  · intro tid e ht
    simp only [Sys.step, ht, Sys.stepThread, gracefulListener.acceptFinish]
  · intro e
    exact ⟨_, rfl, rfl, rfl, rfl, rfl⟩
  · intro i err c hi hd he
    have hlive := live_set_done s.conns i c hi hd
    have h1 : 1 ≤ s.world.ln.w.c := by
      rw [hc]
      unfold Sys.live
      omega
    refine ⟨h1, { world := { s.world with
                    ln := { s.world.ln with w := s.world.ln.w.doneDecrement.1 } },
                  conns := s.conns.set i { once := { done := true } },
                  threads := s.threads ++ [.doneCheck s.world.ln.w.doneDecrement.2],
                  closures := s.closures }, ?_, ?_, ?_, rfl⟩
    · rw [Sys.step_connClose s i err c hi, if_pos ⟨he, hd⟩]
    · simp only [waiter.doneDecrement]
      omega
    · unfold Sys.live
      simp only
      omega
  · intro i err c hi hcase
    rw [Sys.step_connClose s i err c hi, if_neg]
    rcases hcase with hd | he
    · simp [hd]
    · simp [he]
  · intro a s1 h
    exact Sys.step_conns s s1 a h


/-- C9 on a run with two successful and one failed `Accept`, an interrupted
`Close` and a completed `Close`: the count is 1 and one wrapper is live. -/
theorem C9_count_equals_live_wrappers_witness :
    ∃ s, Sys.init.run [.Accept, .step 0 none, .Accept, .step 1 (some (.other 7)),
        .connClose 0 (some .EINTR), .Accept, .step 2 none, .connClose 0 none, .step 3 none]
        = .ok s ∧ s.conns.length < 2 ^ 64 ∧ s.world.ln.w.c = s.live ∧ s.live = 1 :=
  let s : Sys :=
    { world :=
        { heap := [false, false],
          ln := { Listener := { closeLog := [] },
                  w := { c := 1, waiting := 0, done := some 0, cancel := some 1 },
                  once := { done := false }, stop := 0, suspend := none } },
      conns := [{ once := { done := true } }, { once := { done := false } }],
      threads := [.acceptReturned true none, .acceptReturned false (some (.other 7)),
        .acceptReturned true none, .finished],
      closures := 0 }
  ⟨s, rfl, by norm_num [s],
    (C9_count_equals_live_wrappers [.Accept, .step 0 none, .Accept, .step 1 (some (.other 7)),
        .connClose 0 (some .EINTR), .Accept, .step 2 none, .connClose 0 none, .step 3 none]
      s rfl (by norm_num [s])).1, rfl⟩

/-! ## Runs in which the gates are used a second time -/

/-- C8 fails on the code: (1) after a timed-out `GracefulShutdown`, closing the
connection closes the done gate; when a second connection is accepted and
closed, its `Done` closes the done gate again and panics; (2) within a first
`GracefulShutdown(-1)`, when `Done` runs between the increment and the test of
`Wait`, `Done` closes the done gate and `Wait` then closes it again and
panics. -/
theorem C8_done_gate_closed_twice :
    ((Sys.init.run closeAcceptClose).map fun s =>
        (s.world.heap.isClosed s.world.ln.w.done, s.threads[5]?, s.world.ln.w.c, s.live))
      = .ok (true, some (.doneCheck 0), 0, 0) ∧
    Sys.init.run (closeAcceptClose ++ [.step 5 none]) = .error .closeOfClosedChannel ∧
    ((Sys.init.run doneBetweenWaitSteps).map fun s =>
        (s.world.heap.isClosed s.world.ln.w.done, s.threads[2]?, s.world.ln.w.c, s.live))
      = .ok (true, some (.waitCheck 1 (some 3)), 0, 0) ∧
    Sys.init.run (doneBetweenWaitSteps ++ [.step 2 none]) = .error .closeOfClosedChannel :=
  ⟨rfl, rfl, rfl, rfl⟩

/-- C3 fails on the code: after a first `GracefulShutdown` timed out (and
returned `ErrTimeout` with the listener accepting again), the cancel gate
stays closed, the count is still 1, and a second `GracefulShutdown(200)`
either panics in `CancelWait` when its timer fires, or finds its `Wait`
released at once, closes the wrapped listener and returns nil. -/
theorem C3_second_timeout_panics_or_closes :
    ((Sys.init.run timedOutOnce).map fun s =>
        (s.threads[1]?, s.world.ln.w.c, s.world.ln.Listener.closeLog,
          s.world.heap.isClosed s.world.ln.w.cancel, s.world.ln.stop, s.world.ln.once.done,
          s.world.heap.isClosed s.world.ln.suspend))
      = .ok (some (.gsReturned (some .ErrTimeout)), 1, [], true, 0, false, true) ∧
    Sys.init.run secondShutdownTimerFirst = .error .closeOfClosedChannel ∧
    ((Sys.init.run secondShutdownDoneFirst).map fun s =>
        (s.threads[3]?, s.world.ln.w.c, s.live, s.world.ln.Listener.closeLog))
      = .ok (some (.gsReturned none), 1, 1, [none]) :=
  ⟨rfl, rfl, rfl⟩

/-- C4 fails on the code: after a `GracefulShutdown` that returned
`ErrTimeout`, a second `GracefulShutdown(-1)` does not wait: its `Wait` is
released by the cancel gate that is still closed, and it closes the wrapped
listener and returns nil while the count is 1 and one wrapper is live. -/
theorem C4_second_shutdown_does_not_wait :
    ((Sys.init.run secondShutdownNoTimeout).map fun s =>
        (s.threads[1]?, s.threads[3]?, s.world.ln.w.c, s.live, s.world.ln.Listener.closeLog))
      = .ok (some (.gsReturned (some .ErrTimeout)), some (.gsReturned none), 1, 1, [none]) :=
  rfl

/-! ## Draining: `GracefulShutdown` without a timeout -/

theorem Thread.drainOK_of_pos (c c1 : Nat) (log : List Err) (t : Thread) (hpos : 1 ≤ c)
    (h : t.drainOK c log) : t.drainOK c1 log := by
  cases t <;> simp only [Thread.drainOK] at h ⊢ <;> first | exact h | omega

theorem Thread.drainOK_log (c : Nat) (log : List Err) (e : Err) (t : Thread)
    (h : t.drainOK c log) : t.drainOK c (log ++ [e]) := by
  cases t <;> simp only [Thread.drainOK] at h ⊢ <;>
    first | exact h | exact ⟨h.1, List.mem_append_left _ h.2⟩

theorem countP_set_of_get {α : Type} (p : α → Bool) (l : List α) (i : Nat) (a b : α)
    (h : l[i]? = some a) :
    (l.set i b).countP p + (if p a then 1 else 0) = l.countP p + (if p b then 1 else 0) := by
  obtain ⟨hlt, hget⟩ := List.getElem?_eq_some_iff.mp h
  rw [List.countP_set p l i b hlt]
  have hle := List.boole_getElem_le_countP p l i hlt
  rw [hget] at hle ⊢
  omega

theorem Heap.close_ok (h h1 : Heap) (ch : Chan) (hc : h.close ch = .ok h1) :
    ∃ a, ch = some a ∧ h[a]? = some false ∧ h1 = h.set a true := by
  cases ch with
  | none => simp [Heap.close] at hc
  | some a =>
    simp only [Heap.close] at hc
    split at hc
    · rename_i hget
      cases hc
      exact ⟨a, rfl, hget, rfl⟩
    · cases hc

theorem mem_of_get {α : Type} (l : List α) (i : Nat) (a : α) (h : l[i]? = some a) :
    a ∈ l := by
  obtain ⟨hlt, hget⟩ := List.getElem?_eq_some_iff.mp h
  rw [← hget]
  exact List.getElem_mem hlt

/-- A thread moves on, the shared memory stays. -/
theorem Sys.Draining.goto {n : Nat} {s : Sys} (hD : s.Draining n) (tid : Nat) (t t1 : Thread)
    (ht : s.threads[tid]? = some t) (hgs : t1.isGS = t.isGS)
    (hac : t1.afterClose = t.afterClose)
    (hok : t1.drainOK s.world.ln.w.c s.world.ln.Listener.closeLog) :
    (s.goto tid t1).Draining n := by
  obtain ⟨h1, h2, h3, h4, h5, h6, h7, h8, h9, h10, h11, h12, h13⟩ := hD
  refine ⟨h1, h2, h3, h4, h5, h6, h7, h8, h9, h10, ?_, ?_, ?_⟩
  · have := countP_set_of_get Thread.isGS s.threads tid t t1 ht
    simp only [Sys.goto, hgs] at this ⊢
    omega
  · have := countP_set_of_get Thread.afterClose s.threads tid t t1 ht
    simp only [Sys.goto, hac] at this ⊢
    omega
  · intro x hx
    rcases List.mem_or_eq_of_mem_set hx with hx | hx
    · exact h13 x hx
    · rw [hx]
      exact hok

/-- The heap changes, all else stays. -/
theorem Sys.Draining.setHeap {n : Nat} {s : Sys} (hD : s.Draining n) (h : Heap)
    (hlen : h.length = 4) (hcancel : h.isClosed (some 1) = false)
    (hdone : h.isClosed (some 0) = true → s.world.ln.w.c = 0)
    (hlocal : h.isClosed (some 3) = true → s.world.ln.w.c = 0) :
    (s.setHeap h).Draining n := by
  obtain ⟨_, h2, h3, h4, _, h6, h7, _, _, h10, h11, h12, h13⟩ := hD
  exact ⟨hlen, h2, h3, h4, hcancel, h6, h7, hdone, hlocal, h10, h11, h12, h13⟩

theorem Sys.Draining.close {n : Nat} {s : Sys} (hD : s.Draining n) (h1 : Heap) (ch : Chan)
    (hc : s.world.heap.close ch = .ok h1) (hne : ch ≠ some 1)
    (hz : ch = some 0 ∨ ch = some 3 → s.world.ln.w.c = 0) :
    (s.setHeap h1).Draining n := by
  obtain ⟨a, hch, hget, hh1⟩ := Heap.close_ok _ _ _ hc
  subst hh1
  have hlt : a < s.world.heap.length := (List.getElem?_eq_some_iff.mp hget).1
  refine hD.setHeap _ ?_ ?_ ?_ ?_
  · simp [hD.1]
  · have hne1 : (some 1 : Chan) ≠ some a := fun h => hne (by rw [hch, ← h])
    rw [Heap.isClosed_set_other _ _ _ hne1]
    exact hD.2.2.2.2.1
  · intro hcl
    by_cases ha : a = 0
    · exact hz (Or.inl (by rw [hch, ha]))
    · rw [Heap.isClosed_set_other _ _ _ (by simp; omega)] at hcl
      exact hD.2.2.2.2.2.2.2.1 hcl
  · intro hcl
    by_cases ha : a = 3
    · exact hz (Or.inr (by rw [hch, ha]))
    · rw [Heap.isClosed_set_other _ _ _ (by simp; omega)] at hcl
      exact hD.2.2.2.2.2.2.2.2.1 hcl


theorem Sys.Draining.thread {n : Nat} {s : Sys} (hD : s.Draining n) (tid : Nat) (t : Thread)
    (ht : s.threads[tid]? = some t) :
    t.drainOK s.world.ln.w.c s.world.ln.Listener.closeLog :=
  hD.2.2.2.2.2.2.2.2.2.2.2.2 t (mem_of_get _ _ _ ht)

theorem Sys.stepThread_draining (n : Nat) (s s1 : Sys) (tid : Nat) (t : Thread) (err : Err)
    (ht : s.threads[tid]? = some t) (h : s.stepThread tid t err = .ok s1) (hD : s.Draining n) :
    s1.Draining n := by
  have hok := hD.thread tid t ht
  have hdone : s.world.ln.w.done = some 0 := hD.2.1
  have hcancel : s.world.ln.w.cancel = some 1 := hD.2.2.1
  cases t with
  | doneCheck nc =>
    simp only [Sys.stepThread] at h
    split at h
    · rename_i h1 hch
      cases h
      simp only [Thread.drainOK] at hok
      refine Sys.Draining.goto (s := s.setHeap h1) ?_ tid _ _ ht rfl rfl trivial
      simp only [waiter.doneCheck] at hch
      split at hch
      · rename_i hnc
        split at hch
        · exact hD.close h1 _ hch (by simp [hdone]) (fun _ => hok hnc)
        · cases hch
          exact hD
      · cases hch
        exact hD
    · cases h
  | waitEnter d =>
    simp only [Sys.stepThread] at h
    cases h
    simp only [Thread.drainOK] at hok
    refine Sys.Draining.goto (s := s.setWaiter s.world.ln.w.waitRegister.1) ?_ tid _ _ ht
      rfl rfl hok
    exact hD
  | waitCheck wt d =>
    simp only [Sys.stepThread] at h
    split at h
    · rename_i h1 hch
      cases h
      simp only [Thread.drainOK] at hok
      refine Sys.Draining.goto (s := s.setHeap h1) ?_ tid _ _ ht rfl rfl hok
      simp only [waiter.waitCheck] at hch
      split at hch
      · rename_i hcond
        exact hD.close h1 _ hch (by simp [hdone]) (fun _ => hcond.1)
      · cases hch
        exact hD
    · cases h
  | waitSelect d =>
    simp only [Sys.stepThread] at h
    split at h
    · rename_i hready
      cases h
      simp only [Thread.drainOK] at hok
      have hc0 : s.world.ln.w.c = 0 := by
        simp only [waiter.waitReady, hdone, hcancel, hD.2.2.2.2.1, Bool.or_false] at hready
        exact hD.2.2.2.2.2.2.2.1 hready
      exact hD.goto tid _ _ ht rfl rfl ⟨hok, hc0⟩
    · cases h
  | waitExit d =>
    simp only [Sys.stepThread] at h
    split at h
    · rename_i h1 hch
      cases h
      simp only [Thread.drainOK] at hok
      refine Sys.Draining.goto (s := s.setHeap h1) ?_ tid _ _ ht rfl rfl trivial
      exact hD.close h1 _ hch (by simp [hok.1]) (fun _ => hok.2)
    · cases h
  | gsSelect t d =>
    simp only [Sys.stepThread] at h
    split at h
    · rename_i hcl
      cases h
      simp only [Thread.drainOK] at hok
      rw [hok.2] at hcl
      exact hD.goto tid _ _ ht rfl rfl (hD.2.2.2.2.2.2.2.2.1 hcl)
    · cases h
  | gsClose =>
    simp only [Sys.stepThread, gracefulListener.Close] at h
    cases h
    simp only [Thread.drainOK] at hok
    obtain ⟨h1, h2, h3, h4, h5, h6, h7, h8, h9, h10, h11, h12, h13⟩ := hD
    refine ⟨h1, h2, h3, h4, h5, h6, h7, h8, h9, fun _ => hok, ?_, ?_, ?_⟩
    · have := countP_set_of_get Thread.isGS s.threads tid _ (.gsDefer err) ht
      simp only [Thread.isGS, if_true] at this
      simp only [Sys.goto]
      omega
    · have := countP_set_of_get Thread.afterClose s.threads tid _ (.gsDefer err) ht
      simp only [Thread.afterClose, if_true, Bool.false_eq_true, if_false] at this
      simp only [Sys.goto, List.length_append, List.length_singleton]
      omega
    · intro x hx
      rcases List.mem_or_eq_of_mem_set hx with hx | hx
      · exact Thread.drainOK_log _ _ err x (h13 x hx)
      · rw [hx]
        exact ⟨hok, List.mem_append_right _ (List.mem_singleton_self _)⟩
  | gsDefer e =>
    simp only [Sys.stepThread, gracefulListener.restart] at h
    split at h
    · rename_i w1 hw
      split at hw
      · rename_i h1 hch
        cases hw
        cases h
        simp only [Thread.drainOK] at hok
        have hD1 := hD.close h1 _ hch (by simp [hD.2.2.2.1]) (by simp [hD.2.2.2.1])
        have hD2 : Sys.Draining n
            { s with world := { heap := h1,
                                ln := { s.world.ln with stop := 0, once := { done := false } } } } :=
          hD1
        exact hD2.goto tid _ _ ht rfl rfl hok
      · cases hw
    · cases h
  | gsReturned e => simp [Sys.stepThread] at h
  | acceptParked g => exact absurd hok (by simp [Thread.drainOK])
  | acceptCall => exact absurd hok (by simp [Thread.drainOK])
  | acceptReturned ok e => simp [Sys.stepThread] at h
  | finished => simp [Sys.stepThread] at h


theorem Sys.step_draining (n : Nat) (hn : n < 2 ^ 64) (s s1 : Sys) (a : Action)
    (hq : a.quiet = true) (h : s.step a = .ok s1) (hD : s.Draining n) : s1.Draining n := by
  cases a with
  | connClose i err =>
    cases hi : s.conns[i]? with
    | none => simp [Sys.step, hi] at h
    | some c =>
      rw [Sys.step_connClose s i err c hi] at h
      split at h
      · rename_i hcond
        cases h
        have hlive := live_set_done s.conns i c hi hcond.2
        obtain ⟨h1, h2, h3, h4, h5, h6, h7, h8, h9, h10, h11, h12, h13⟩ := hD
        have hle := s.live_le
        have hpos : 1 ≤ s.world.ln.w.c := by
          rw [h6]
          unfold Sys.live
          omega
        have hdec : (2 ^ 64 - 1 + s.world.ln.w.c) % 2 ^ 64 = s.world.ln.w.c - 1 := by
          omega
        refine ⟨h1, h2, h3, h4, h5, ?_, ?_, ?_, ?_, ?_, ?_, ?_, ?_⟩
        · simp only [waiter.doneDecrement, hdec]
          unfold Sys.live at h6 ⊢
          simp only
          omega
        · simpa using h7
        · intro hcl
          have := h8 hcl
          omega
        · intro hcl
          have := h9 hcl
          omega
        · intro hcl
          have := h10 hcl
          omega
        · simpa [Thread.isGS] using h11
        · simpa [Thread.afterClose] using h12
        · intro x hx
          rcases List.mem_append.mp hx with hx | hx
          · exact Thread.drainOK_of_pos _ _ _ x hpos (h13 x hx)
          · rw [List.mem_singleton.mp hx]
            simp only [Thread.drainOK, waiter.doneDecrement]
            exact fun h => h
      · cases h
        exact hD
  | step tid err =>
    simp only [Sys.step] at h
    split at h
    · cases h
    · rename_i t ht
      exact Sys.stepThread_draining n s s1 tid t err ht h hD
  | timer tid =>
    simp only [Sys.step] at h
    split at h
    · rename_i t d ht
      have hok := hD.thread tid _ ht
      simp only [Thread.drainOK] at hok
      split at h
      · omega
      · cases h
    · cases h
  | Accept => cases hq
  | StopAccept => cases hq
  | restart => cases hq
  | Close e => cases hq
  | GracefulShutdown t => cases hq

theorem Sys.run_draining (n : Nat) (hn : n < 2 ^ 64) (acts : List Action)
    (hq : ∀ a ∈ acts, a.quiet = true) (s s1 : Sys) (h : s.run acts = .ok s1)
    (hD : s.Draining n) : s1.Draining n := by
  induction acts generalizing s with
  | nil =>
    cases h
    exact hD
  | cons a rest ih =>
    simp only [Sys.run] at h
    split at h
    · rename_i s2 hs
      exact ih (fun x hx => hq x (List.mem_cons_of_mem _ hx)) s2 h
        (Sys.step_draining n hn s s2 a (hq a (List.mem_cons_self _ _)) hs hD)
    · cases h


theorem Sys.step_drainingBefore (n : Nat) (hn : n < 2 ^ 64) (s s1 : Sys) (a : Action)
    (hq : a.quiet = true) (h : s.step a = .ok s1) (hD : s.DrainingBefore n) :
    s1.DrainingBefore n := by
  obtain ⟨h1, h2, h3, h4, h5, h6, h7, h8, h9⟩ := hD
  cases a with
  | connClose i err =>
    cases hi : s.conns[i]? with
    | none => simp [Sys.step, hi] at h
    | some c =>
      rw [Sys.step_connClose s i err c hi] at h
      split at h
      · rename_i hcond
        cases h
        have hlive := live_set_done s.conns i c hi hcond.2
        have hle := s.live_le
        have hpos : 1 ≤ s.world.ln.w.c := by
          rw [h5]
          unfold Sys.live
          omega
        have hdec : (2 ^ 64 - 1 + s.world.ln.w.c) % 2 ^ 64 = s.world.ln.w.c - 1 := by
          omega
        refine ⟨h1, h2, h3, h4, ?_, ?_, h7, h8, ?_⟩
        · simp only [waiter.doneDecrement, hdec]
          unfold Sys.live at h5 ⊢
          simp only
          omega
        · simpa using h6
        · intro x hx
          rcases List.mem_append.mp hx with hx | hx
          · exact ⟨(h9 x hx).1, Thread.drainOK_of_pos _ _ _ x hpos (h9 x hx).2⟩
          · rw [List.mem_singleton.mp hx]
            simp only [Thread.drainOK, waiter.doneDecrement]
            exact ⟨rfl, fun h => h⟩
      · cases h
        exact ⟨h1, h2, h3, h4, h5, h6, h7, h8, h9⟩
  | step tid err =>
    simp only [Sys.step] at h
    split at h
    · cases h
    · rename_i t ht
      have hp := h9 t (mem_of_get _ _ _ ht)
      cases t with
      | doneCheck nc =>
        simp only [Sys.stepThread, waiter.doneCheck, h4, ne_eq, not_true_eq_false, if_false,
          ite_self] at h
        cases h
        refine ⟨h1, h2, h3, h4, h5, h6, h7, h8, ?_⟩
        intro x hx
        rcases List.mem_or_eq_of_mem_set hx with hx | hx
        · exact h9 x hx
        · rw [hx]
          exact ⟨rfl, trivial⟩
      | acceptReturned ok e => simp [Sys.stepThread] at h
      | finished => simp [Sys.stepThread] at h
      | waitEnter d => simp [Thread.passive] at hp
      | waitCheck wt d => simp [Thread.passive] at hp
      | waitSelect d => simp [Thread.passive] at hp
      | waitExit d => simp [Thread.passive] at hp
      | gsSelect t d => simp [Thread.passive] at hp
      | gsClose => simp [Thread.passive] at hp
      | gsDefer e => simp [Thread.passive] at hp
      | gsReturned e => simp [Thread.passive] at hp
      | acceptParked g => simp [Thread.passive] at hp
      | acceptCall => simp [Thread.passive] at hp
  | timer tid =>
    simp only [Sys.step] at h
    split at h
    · rename_i t d ht
      have hp := h9 _ (mem_of_get _ _ _ ht)
      simp [Thread.passive] at hp
    · cases h
  | Accept => cases hq
  | StopAccept => cases hq
  | restart => cases hq
  | Close e => cases hq
  | GracefulShutdown t => cases hq

theorem Sys.run_drainingBefore (n : Nat) (hn : n < 2 ^ 64) (acts : List Action)
    (hq : ∀ a ∈ acts, a.quiet = true) (s s1 : Sys) (h : s.run acts = .ok s1)
    (hD : s.DrainingBefore n) : s1.DrainingBefore n := by
  induction acts generalizing s with
  | nil =>
    cases h
    exact hD
  | cons a rest ih =>
    simp only [Sys.run] at h
    split at h
    · rename_i s2 hs
      exact ih (fun x hx => hq x (List.mem_cons_of_mem _ hx)) s2 h
        (Sys.step_drainingBefore n hn s s2 a (hq a (List.mem_cons_self _ _)) hs hD)
    · cases h

theorem countP_eq_zero_of_passive (p : Thread → Bool) (hp : ∀ t, p t = true → t.passive = false)
    (l : List Thread) (hl : ∀ t ∈ l, t.passive = true) : l.countP p = 0 := by
  rw [List.countP_eq_zero]
  intro t ht hpt
  have := hp t hpt
  rw [hl t ht] at this
  cases this

theorem Sys.step_GracefulShutdown_draining (n : Nat) (s s1 : Sys) (timeout : Int)
    (ht : timeout ≤ 0) (h : s.step (.GracefulShutdown timeout) = .ok s1)
    (hD : s.DrainingBefore n) : s1.Draining n := by
  obtain ⟨h1, h2, h3, h4, h5, h6, h7, h8, h9⟩ := hD
  simp only [Sys.step, StopAccept_of_fresh s.world h7, Heap.make] at h
  cases h
  have hgs : s.threads.countP Thread.isGS = 0 :=
    countP_eq_zero_of_passive _ (by intro t; cases t <;> simp [Thread.isGS, Thread.passive])
      _ (fun t ht => (h9 t ht).1)
  have hac : s.threads.countP Thread.afterClose = 0 :=
    countP_eq_zero_of_passive _ (by intro t; cases t <;> simp [Thread.afterClose, Thread.passive])
      _ (fun t ht => (h9 t ht).1)
  refine ⟨?_, h2, h3, ?_, ?_, h5, h6, ?_, ?_, ?_, ?_, ?_, ?_⟩
  · simp [Sys.spawn, h1]
  · simp [Sys.spawn, h1]
  · simp [Sys.spawn, h1, Heap.isClosed]
  · simp [Sys.spawn, h1, Heap.isClosed]
  · simp [Sys.spawn, h1, Heap.isClosed]
  · simp [Sys.spawn, h8]
  · simp [Sys.spawn, hgs, Thread.isGS]
  · simp [Sys.spawn, hac, Thread.afterClose, h8]
  · intro x hx
    simp only [Sys.spawn, List.append_assoc, List.mem_append, List.mem_cons,
      List.mem_singleton, List.not_mem_nil, or_false] at hx
    rcases hx with hx | hx | hx
    · have := (h9 x hx).2
      rw [← h8] at this
      exact this
    · rw [hx]
      exact ⟨ht, by simp [h1]⟩
    · rw [hx]
      simp [Thread.drainOK, h1]

theorem Sys.accepted_drainingBefore (n : Nat) (hn : n < 2 ^ 64) :
    (Sys.accepted n).DrainingBefore n := by
  refine ⟨rfl, rfl, rfl, rfl, ?_, ?_, rfl, rfl, ?_⟩
  · simp only [Sys.accepted, Sys.live, List.countP_replicate, Bool.not_false, if_true]
    exact Nat.mod_eq_of_lt hn
  · simp [Sys.accepted]
  · intro t ht
    rw [List.eq_of_mem_replicate ht]
    exact ⟨rfl, trivial⟩

/-! ## Draining: runs in which `GracefulShutdown` returns -/

theorem get_mid {α : Type} (l r : List α) (a : α) : (l ++ a :: r)[l.length]? = some a := by
  rw [List.getElem?_append_right (le_refl _)]
  simp

theorem set_mid {α : Type} (l r : List α) (a b : α) :
    (l ++ a :: r).set l.length b = l ++ b :: r := by
  simp

theorem get_mid1 {α : Type} (l r : List α) (a b : α) :
    (l ++ a :: b :: r)[l.length + 1]? = some b := by
  rw [List.getElem?_append_right (by omega)]
  simp

theorem set_mid1 {α : Type} (l r : List α) (a b c : α) :
    (l ++ a :: b :: r).set (l.length + 1) c = l ++ a :: c :: r := by
  simp

theorem conns_get (n j : Nat) (hj : j < n) :
    (List.replicate j ({ once := { done := true } } : conn)
      ++ List.replicate (n - j) { once := { done := false } })[j]?
      = some { once := { done := false } } := by
  have h1 : n - j = (n - (j + 1)) + 1 := by omega
  rw [h1, List.replicate_succ]
  have := get_mid (List.replicate j ({ once := { done := true } } : conn))
    (List.replicate (n - (j + 1)) { once := { done := false } })
    ({ once := { done := false } } : conn)
  simpa using this

theorem conns_set (n j : Nat) (hj : j < n) :
    (List.replicate j ({ once := { done := true } } : conn)
      ++ List.replicate (n - j) ({ once := { done := false } } : conn)).set j
        ({ once := { done := true } } : conn)
      = List.replicate (j + 1) ({ once := { done := true } } : conn)
        ++ List.replicate (n - (j + 1)) ({ once := { done := false } } : conn) := by
  induction j generalizing n with
  | zero =>
    cases n with
    | zero => omega
    | succ m => simp [List.replicate_succ]
  | succ k ih =>
    cases n with
    | zero => omega
    | succ m =>
      have := ih m (by omega)
      simp only [Nat.add_sub_add_right] at this ⊢
      rw [List.replicate_succ, List.cons_append, List.set_cons_succ, this]
      rfl

theorem Sys.mid_close_one (n j : Nat) (heap : Heap) (waiting : Nat) (once : Bool) (stop : Nat)
    (suspend : Chan) (log : List Err) (threads : List Thread)
    (hn : n < 2 ^ 64) (hj : j < n) (hsafe : j + 1 < n ∨ waiting = 0) :
    (Sys.mid n j heap waiting once stop suspend log threads).run
        [.connClose j none, .step threads.length none]
      = .ok (Sys.mid n (j + 1) heap waiting once stop suspend log (threads ++ [.finished])) := by
  have hdec : (2 ^ 64 - 1 + (n - j)) % 2 ^ 64 = n - (j + 1) := by omega
  simp only [Sys.run, Sys.mid]
  rw [Sys.step_connClose _ j none _ (conns_get n j hj), if_pos ⟨by simp, rfl⟩]
  simp only [waiter.doneDecrement, hdec, conns_set n j hj]
  have hget := get_mid threads [] (Thread.doneCheck (n - (j + 1)))
  have hset := set_mid threads [] (Thread.doneCheck (n - (j + 1))) Thread.finished
  simp only [Sys.step, hget, Sys.stepThread, waiter.doneCheck]
  rcases hsafe with h | h
  · have h0 : n - (j + 1) ≠ 0 := by omega
    simp only [h0, if_false, Sys.setHeap, Sys.goto, hset]
  · simp only [h, ne_eq, not_true_eq_false, if_false, ite_self, Sys.setHeap, Sys.goto, hset]


theorem Sys.mid_close_last (n j : Nat) (heap : Heap) (waiting : Nat) (once : Bool) (stop : Nat)
    (suspend : Chan) (log : List Err) (threads : List Thread)
    (_hn : n < 2 ^ 64) (hj : j + 1 = n) (hw : waiting ≠ 0) (hopen : heap[0]? = some false) :
    (Sys.mid n j heap waiting once stop suspend log threads).run
        [.connClose j none, .step threads.length none]
      = .ok (Sys.mid n (j + 1) (heap.set 0 true) waiting once stop suspend log
          (threads ++ [.finished])) := by
  have hdec : (2 ^ 64 - 1 + (n - j)) % 2 ^ 64 = n - (j + 1) := by omega
  have h0 : n - (j + 1) = 0 := by omega
  simp only [Sys.run, Sys.mid]
  rw [Sys.step_connClose _ j none _ (conns_get n j (by omega)), if_pos ⟨by simp, rfl⟩]
  simp only [waiter.doneDecrement, hdec, conns_set n j (by omega)]
  have hget := get_mid threads [] (Thread.doneCheck (n - (j + 1)))
  have hset := set_mid threads [] (Thread.doneCheck (n - (j + 1))) Thread.finished
  simp only [Sys.step, hget, Sys.stepThread, waiter.doneCheck]
  simp only [h0, if_true, hw, ne_eq, not_false_eq_true, Heap.close, hopen, Sys.setHeap, Sys.goto]
  rw [h0] at hset
  simp only [hset]

theorem closeRun_quiet (j tid m : Nat) : ∀ a ∈ closeRun j tid m, a.quiet = true := by
  induction m generalizing j tid with
  | zero => simp [closeRun]
  | succ k ih =>
    intro a ha
    simp only [closeRun, List.mem_cons] at ha
    rcases ha with ha | ha | ha
    · rw [ha]
      rfl
    · rw [ha]
      rfl
    · exact ih _ _ a ha

theorem Sys.mid_close_run (n : Nat) (heap : Heap) (waiting : Nat) (once : Bool) (stop : Nat)
    (suspend : Chan) (log : List Err) (hn : n < 2 ^ 64) (m j : Nat) (threads : List Thread)
    (hj : j + m ≤ n) (hsafe : j + m < n ∨ waiting = 0) :
    (Sys.mid n j heap waiting once stop suspend log threads).run (closeRun j threads.length m)
      = .ok (Sys.mid n (j + m) heap waiting once stop suspend log
          (threads ++ List.replicate m .finished)) := by
  induction m generalizing j threads with
  | zero => simp [closeRun, Sys.run]
  | succ k ih =>
    have hone := Sys.mid_close_one n j heap waiting once stop suspend log threads hn (by omega)
      (by omega)
    have hrest := ih (j + 1) (threads ++ [.finished]) (by omega) (by omega)
    have happ := Sys.run_append (Sys.mid n j heap waiting once stop suspend log threads)
      [.connClose j none, .step threads.length none]
      (closeRun (j + 1) (threads.length + 1) k)
    simp only [List.cons_append, List.nil_append, hone] at happ
    simp only [closeRun, happ]
    simp only [List.length_append, List.length_singleton] at hrest
    rw [hrest]
    simp [List.replicate_succ, Nat.add_assoc, Nat.add_comm 1 k]

theorem closeRun_append (j tid m k : Nat) :
    closeRun j tid (m + k) = closeRun j tid m ++ closeRun (j + m) (tid + m) k := by
  induction m generalizing j tid with
  | zero => simp [closeRun]
  | succ i ih =>
    have : i + 1 + k = (i + k) + 1 := by omega
    rw [this]
    simp only [closeRun, List.cons_append, ih]
    simp [Nat.add_assoc, Nat.add_comm 1 i]

theorem Sys.mid_close_all (n : Nat) (heap : Heap) (waiting : Nat) (once : Bool) (stop : Nat)
    (suspend : Chan) (log : List Err) (hn : n < 2 ^ 64) (j : Nat) (threads : List Thread)
    (hj : j < n) (hw : waiting ≠ 0) (hopen : heap[0]? = some false) :
    (Sys.mid n j heap waiting once stop suspend log threads).run
        (closeRun j threads.length (n - j))
      = .ok (Sys.mid n n (heap.set 0 true) waiting once stop suspend log
          (threads ++ List.replicate (n - j) .finished)) := by
  have hsplit : n - j = (n - j - 1) + 1 := by omega
  rw [hsplit, closeRun_append, Sys.run_append,
    Sys.mid_close_run n heap waiting once stop suspend log hn (n - j - 1) j threads (by omega)
      (Or.inl (by omega))]
  have hlast := Sys.mid_close_last n (j + (n - j - 1)) heap waiting once stop suspend log
    (threads ++ List.replicate (n - j - 1) .finished) hn (by omega) hw hopen
  simp only [List.length_append, List.length_replicate] at hlast
  simp only [closeRun]
  rw [hlast]
  have h1 : j + (n - j - 1) + 1 = n := by omega
  simp [h1, List.replicate_succ', List.append_assoc]

theorem Sys.run_cons_ok (s s1 : Sys) (a : Action) (rest : List Action) (h : s.step a = .ok s1) :
    s.run (a :: rest) = s1.run rest := by
  simp only [Sys.run, h]

theorem Sys.step_at (s : Sys) (front rest : List Thread) (t : Thread) (err : Err)
    (hth : s.threads = front ++ t :: rest) :
    s.step (.step front.length err) = s.stepThread front.length t err := by
  simp only [Sys.step, hth, get_mid]

theorem Sys.step_at1 (s : Sys) (front rest : List Thread) (a t : Thread) (err : Err)
    (hth : s.threads = front ++ a :: t :: rest) :
    s.step (.step (front.length + 1) err) = s.stepThread (front.length + 1) t err := by
  simp only [Sys.step, hth, get_mid1]

theorem Sys.run_acceptN (n : Nat) : Sys.init.run (acceptN n) = .ok (Sys.accepted n) := by
  induction n with
  | zero => rfl
  | succ k ih =>
    simp only [acceptN, Sys.run_append, ih]
    have h1 : (Sys.accepted k).step .Accept = .ok ((Sys.accepted k).spawn .acceptCall) := rfl
    have h2 : ((Sys.accepted k).spawn .acceptCall).step (.step k none)
        = .ok (Sys.accepted (k + 1)) := by
      have hlen : k = (List.replicate k (Thread.acceptReturned true none)).length := by simp
      have := Sys.step_at ((Sys.accepted k).spawn .acceptCall)
        (List.replicate k (.acceptReturned true none)) [] .acceptCall none rfl
      rw [← hlen] at this
      rw [this]
      have hset := set_mid (List.replicate k (Thread.acceptReturned true none)) []
        Thread.acceptCall (Thread.acceptReturned true none)
      rw [← hlen] at hset
      simp only [Sys.stepThread, gracefulListener.acceptFinish, Sys.goto, Sys.spawn, Sys.accepted,
        waiter.Add, hset, uint64_succ_mod, ← List.replicate_succ']
    rw [Sys.run_cons_ok _ _ _ _ h1, Sys.run_cons_ok _ _ _ _ h2]
    rfl

theorem Sys.accepted_eq_mid (n : Nat) (hn : n < 2 ^ 64) :
    Sys.accepted n
      = Sys.mid n 0 [false, false] 0 false 0 none [] (List.replicate n (.acceptReturned true none)) := by
  simp only [Sys.accepted, Sys.mid, Nat.mod_eq_of_lt hn, Nat.sub_zero, List.replicate_zero,
    List.nil_append]

theorem Sys.mid_shutdownEnter (n k : Nat) (timeout : Int) (threads : List Thread) :
    (Sys.mid n k [false, false] 0 false 0 none [] threads).run
        (shutdownEnter timeout threads.length)
      = .ok (Sys.mid n k (if n - k = 0 then [true, false, false, false]
                          else [false, false, false, false]) 1 true 1 (some 2) []
          (threads ++ [.gsSelect timeout (some 3), .waitSelect (some 3)])) := by
  have h1 : (Sys.mid n k [false, false] 0 false 0 none [] threads).step
        (.GracefulShutdown timeout)
      = .ok (Sys.mid n k [false, false, false, false] 0 true 1 (some 2) []
          (threads ++ [.gsSelect timeout (some 3), .waitEnter (some 3)])) := by
    simp only [Sys.step, Sys.mid, StopAccept_of_fresh, Heap.make, Sys.spawn, List.append_assoc,
      List.singleton_append, List.length_append, List.length_cons, List.length_nil,
      List.cons_append, List.nil_append]
  have h2 : (Sys.mid n k [false, false, false, false] 0 true 1 (some 2) []
          (threads ++ [.gsSelect timeout (some 3), .waitEnter (some 3)])).step
        (.step (threads.length + 1) none)
      = .ok (Sys.mid n k [false, false, false, false] 1 true 1 (some 2) []
          (threads ++ [.gsSelect timeout (some 3), .waitCheck 1 (some 3)])) := by
    rw [Sys.step_at1 _ threads [] (.gsSelect timeout (some 3)) (.waitEnter (some 3)) none rfl]
    simp only [Sys.stepThread, Sys.mid, waiter.waitRegister, Sys.setWaiter, Sys.goto, set_mid1]
    rfl
  have h3 : (Sys.mid n k [false, false, false, false] 1 true 1 (some 2) []
          (threads ++ [.gsSelect timeout (some 3), .waitCheck 1 (some 3)])).step
        (.step (threads.length + 1) none)
      = .ok (Sys.mid n k (if n - k = 0 then [true, false, false, false]
                          else [false, false, false, false]) 1 true 1 (some 2) []
          (threads ++ [.gsSelect timeout (some 3), .waitSelect (some 3)])) := by
    rw [Sys.step_at1 _ threads [] (.gsSelect timeout (some 3)) (.waitCheck 1 (some 3)) none rfl]
    by_cases h0 : n - k = 0
    · simp only [Sys.stepThread, Sys.mid, waiter.waitCheck, h0, and_self, if_true, Heap.close,
        List.getElem?_cons_zero, List.set_cons_zero, Sys.setHeap, Sys.goto, set_mid1]
    · simp only [Sys.stepThread, Sys.mid, waiter.waitCheck, h0, false_and, if_false,
        Sys.setHeap, Sys.goto, set_mid1]
  simp only [shutdownEnter]
  rw [Sys.run_cons_ok _ _ _ _ h1, Sys.run_cons_ok _ _ _ _ h2, Sys.run_cons_ok _ _ _ _ h3]
  rfl


theorem Sys.mid_shutdownLeave (n : Nat) (timeout : Int) (e : Err) (front rest : List Thread) :
    (Sys.mid n n [true, false, false, false] 1 true 1 (some 2) []
        (front ++ .gsSelect timeout (some 3) :: .waitSelect (some 3) :: rest)).run
        (shutdownLeave front.length e)
      = .ok (Sys.mid n n [true, false, true, true] 1 false 0 (some 2) [e]
          (front ++ .gsReturned e :: .finished :: rest)) := by
  have h1 : (Sys.mid n n [true, false, false, false] 1 true 1 (some 2) []
        (front ++ .gsSelect timeout (some 3) :: .waitSelect (some 3) :: rest)).step
        (.step (front.length + 1) none)
      = .ok (Sys.mid n n [true, false, false, false] 1 true 1 (some 2) []
        (front ++ .gsSelect timeout (some 3) :: .waitExit (some 3) :: rest)) := by
    rw [Sys.step_at1 _ front rest (.gsSelect timeout (some 3)) (.waitSelect (some 3)) none rfl]
    simp only [Sys.stepThread, Sys.mid, waiter.waitReady, Heap.isClosed, List.getD_cons_zero,
      Bool.true_or, if_true, Sys.goto, set_mid1]
  have h2 : (Sys.mid n n [true, false, false, false] 1 true 1 (some 2) []
        (front ++ .gsSelect timeout (some 3) :: .waitExit (some 3) :: rest)).step
        (.step (front.length + 1) none)
      = .ok (Sys.mid n n [true, false, false, true] 1 true 1 (some 2) []
        (front ++ .gsSelect timeout (some 3) :: .finished :: rest)) := by
    rw [Sys.step_at1 _ front rest (.gsSelect timeout (some 3)) (.waitExit (some 3)) none rfl]
    simp only [Sys.stepThread, Sys.mid, Heap.close, List.getElem?_cons_succ,
      List.getElem?_cons_zero, List.set_cons_succ, List.set_cons_zero, Sys.setHeap, Sys.goto,
      set_mid1]
  have h3 : (Sys.mid n n [true, false, false, true] 1 true 1 (some 2) []
        (front ++ .gsSelect timeout (some 3) :: .finished :: rest)).step
        (.step front.length none)
      = .ok (Sys.mid n n [true, false, false, true] 1 true 1 (some 2) []
        (front ++ .gsClose :: .finished :: rest)) := by
    rw [Sys.step_at _ front (.finished :: rest) (.gsSelect timeout (some 3)) none rfl]
    simp only [Sys.stepThread, Sys.mid, Heap.isClosed, List.getD_cons_succ, List.getD_cons_zero,
      if_true, Sys.goto, set_mid]
  have h4 : (Sys.mid n n [true, false, false, true] 1 true 1 (some 2) []
        (front ++ .gsClose :: .finished :: rest)).step (.step front.length e)
      = .ok (Sys.mid n n [true, false, false, true] 1 true 1 (some 2) [e]
        (front ++ .gsDefer e :: .finished :: rest)) := by
    rw [Sys.step_at _ front (.finished :: rest) .gsClose e rfl]
    simp only [Sys.stepThread, Sys.mid, gracefulListener.Close, List.nil_append, Sys.goto,
      set_mid]
  have h5 : (Sys.mid n n [true, false, false, true] 1 true 1 (some 2) [e]
        (front ++ .gsDefer e :: .finished :: rest)).step (.step front.length none)
      = .ok (Sys.mid n n [true, false, true, true] 1 false 0 (some 2) [e]
        (front ++ .gsReturned e :: .finished :: rest)) := by
    rw [Sys.step_at _ front (.finished :: rest) (.gsDefer e) none rfl]
    simp only [Sys.stepThread, Sys.mid, gracefulListener.restart, Heap.close,
      List.getElem?_cons_succ, List.getElem?_cons_zero, List.set_cons_succ, List.set_cons_zero,
      Sys.goto, set_mid]
  simp only [shutdownLeave]
  rw [Sys.run_cons_ok _ _ _ _ h1, Sys.run_cons_ok _ _ _ _ h2, Sys.run_cons_ok _ _ _ _ h3,
    Sys.run_cons_ok _ _ _ _ h4, Sys.run_cons_ok _ _ _ _ h5]
  rfl

/-- The drain schedule in which `k` of the `n` wrappers are closed before
`GracefulShutdown` is entered and the others while it waits. -/
theorem Sys.drain_returns (n k : Nat) (hn : n < 2 ^ 64) (hk : k ≤ n) (timeout : Int) (e : Err) :
    (Sys.accepted n).run (closeRun 0 n k ++ .GracefulShutdown timeout ::
        ([.step (n + k + 1) none, .step (n + k + 1) none] ++ closeRun k (n + k + 2) (n - k)
          ++ shutdownLeave (n + k) e))
      = .ok (Sys.mid n n [true, false, true, true] 1 false 0 (some 2) [e]
          (List.replicate n (.acceptReturned true none) ++ List.replicate k .finished
            ++ .gsReturned e :: .finished :: List.replicate (n - k) .finished)) := by
  have hT : (List.replicate n (Thread.acceptReturned true none)
      ++ List.replicate k Thread.finished).length = n + k := by simp
  have hT0 : (List.replicate n (Thread.acceptReturned true none)).length = n := by simp
  have hpre := Sys.mid_close_run n [false, false] 0 false 0 none [] hn k 0
    (List.replicate n (.acceptReturned true none)) (by omega) (Or.inr rfl)
  rw [hT0, Nat.zero_add] at hpre
  have henter := Sys.mid_shutdownEnter n k timeout
    (List.replicate n (.acceptReturned true none) ++ List.replicate k .finished)
  rw [hT] at henter
  simp only [shutdownEnter] at henter
  have hleave := Sys.mid_shutdownLeave n timeout e
    (List.replicate n (.acceptReturned true none) ++ List.replicate k .finished)
    (List.replicate (n - k) .finished)
  rw [hT] at hleave
  rw [Sys.accepted_eq_mid n hn, Sys.run_append, hpre]
  have hsplit : Action.GracefulShutdown timeout ::
        ([.step (n + k + 1) none, .step (n + k + 1) none] ++ closeRun k (n + k + 2) (n - k)
          ++ shutdownLeave (n + k) e)
      = [.GracefulShutdown timeout, .step (n + k + 1) none, .step (n + k + 1) none]
          ++ (closeRun k (n + k + 2) (n - k) ++ shutdownLeave (n + k) e) := by
    simp
  simp only []
  rw [hsplit, Sys.run_append, henter]
  simp only []
  rw [Sys.run_append]
  rcases Nat.lt_or_ge k n with hlt | hge
  · have h0 : ¬ (n - k = 0) := by omega
    have hmid := Sys.mid_close_all n [false, false, false, false] 1 true 1 (some 2) [] hn k
      (List.replicate n (.acceptReturned true none) ++ List.replicate k .finished
        ++ [.gsSelect timeout (some 3), .waitSelect (some 3)]) hlt (by omega) rfl
    simp only [List.length_append, List.length_replicate, List.length_cons, List.length_nil]
      at hmid
    rw [if_neg h0, hmid]
    simp only [List.set_cons_zero, List.append_assoc, List.cons_append, List.nil_append]
    simp only [List.append_assoc] at hleave
    exact hleave
  · have hkn : k = n := by omega
    subst hkn
    simp only [Nat.sub_self, if_true, closeRun, Sys.run, List.replicate_zero] at hleave ⊢
    simp only [List.append_assoc, List.cons_append, List.nil_append] at hleave ⊢
    exact hleave

theorem Sys.Draining.returned {n : Nat} {s : Sys} (hD : s.Draining n) (e : Err)
    (he : Thread.gsReturned e ∈ s.threads) :
    s.world.ln.w.c = 0 ∧ s.world.ln.Listener.closeLog = [e] := by
  obtain ⟨_, _, _, _, _, _, _, _, _, _, h11, h12, h13⟩ := hD
  have hok := h13 _ he
  simp only [Thread.drainOK] at hok
  refine ⟨hok.1, ?_⟩
  have hle : s.threads.countP Thread.afterClose ≤ s.threads.countP Thread.isGS := by
    apply List.countP_mono_left
    intro t _ ht
    cases t <;> simp_all [Thread.afterClose, Thread.isGS]
  have hlen : s.world.ln.Listener.closeLog.length ≤ 1 := by omega
  cases hlog : s.world.ln.Listener.closeLog with
  | nil =>
    rw [hlog] at hok
    simp at hok
  | cons x rest =>
    rw [hlog] at hok hlen
    cases rest with
    | nil =>
      simp at hok
      rw [hok.2]
    | cons y more =>
      simp at hlen

theorem Sys.drain_safe (n : Nat) (hn : n < 2 ^ 64) (timeout : Int) (ht : timeout ≤ 0)
    (pre post : List Action) (s : Sys) (hpre : ∀ a ∈ pre, a.quiet = true)
    (hpost : ∀ a ∈ post, a.quiet = true)
    (hrun : (Sys.accepted n).run (pre ++ .GracefulShutdown timeout :: post) = .ok s) :
    s.Draining n := by
  rw [Sys.run_append] at hrun
  split at hrun
  · rename_i s0 hs0
    have hB := Sys.run_drainingBefore n hn pre hpre _ s0 hs0 (Sys.accepted_drainingBefore n hn)
    simp only [Sys.run] at hrun
    split at hrun
    · rename_i s1 hs1
      exact Sys.run_draining n hn post hpost s1 s hrun
        (Sys.step_GracefulShutdown_draining n s0 s1 timeout ht hs1 hB)
    · cases hrun
  · cases hrun


theorem Sys.mid_live (n j : Nat) (heap : Heap) (waiting : Nat) (once : Bool) (stop : Nat)
    (suspend : Chan) (log : List Err) (threads : List Thread) :
    (Sys.mid n j heap waiting once stop suspend log threads).live = n - j := by
  simp only [Sys.live, Sys.mid, List.countP_append, List.countP_replicate, Bool.not_true,
    Bool.not_false, if_true, Bool.false_eq_true, if_false, Nat.zero_add]

/-- C2: for every `n < 2^64`, after `n` connections were accepted on a fresh
listener (count `n`, `n` live wrappers), in every run made of `Close` calls on
wrappers with any results, one `GracefulShutdown` with a timeout `≤ 0`, and
steps of the calls in progress, in any order: the count always equals the
number of live wrappers; the wrapped listener's `Close` has been called only
if the count is zero and no wrapper is live; and if `GracefulShutdown` has
returned `e`, then the count is zero, all `n` wrappers have notified, the
wrapped `Close` was called exactly once and `e` is its result. Moreover, for
every `k ≤ n` and every result `e` of the wrapped `Close`, there is such a run
in which `k` wrappers are closed before `GracefulShutdown` is entered, the
other `n - k` while it waits, and `GracefulShutdown` returns `e`. -/
theorem C2_shutdown_returns_only_after_drain (n : Nat) (hn : n < 2 ^ 64) (timeout : Int)
    (ht : timeout ≤ 0) :
    (Sys.init.run (acceptN n) = .ok (Sys.accepted n) ∧ (Sys.accepted n).world.ln.w.c = n ∧
      (Sys.accepted n).live = n) ∧
    (∀ (pre post : List Action) (s : Sys), (∀ a ∈ pre, a.quiet = true) →
      (∀ a ∈ post, a.quiet = true) →
      (Sys.accepted n).run (pre ++ .GracefulShutdown timeout :: post) = .ok s →
      s.conns.length = n ∧ s.world.ln.w.c = s.live ∧
      (s.world.ln.Listener.closeLog ≠ [] → s.world.ln.w.c = 0 ∧ s.live = 0) ∧
      ∀ e, Thread.gsReturned e ∈ s.threads →
        s.world.ln.w.c = 0 ∧ s.live = 0 ∧ s.world.ln.Listener.closeLog = [e]) ∧
    (∀ (k : Nat) (e : Err), k ≤ n →
      ∃ (pre post : List Action) (s0 s : Sys), (∀ a ∈ pre, a.quiet = true) ∧
        (∀ a ∈ post, a.quiet = true) ∧
        (Sys.accepted n).run pre = .ok s0 ∧ s0.live = n - k ∧
        (Sys.accepted n).run (pre ++ .GracefulShutdown timeout :: post) = .ok s ∧
        Thread.gsReturned e ∈ s.threads ∧ s.live = 0 ∧
        s.world.ln.Listener.closeLog = [e]) := by
  refine ⟨⟨Sys.run_acceptN n, ?_, ?_⟩, ?_, ?_⟩
  · exact Nat.mod_eq_of_lt hn
  · rw [Sys.accepted_eq_mid n hn, Sys.mid_live]
    rfl
  · intro pre post s hpre hpost hrun
    have hD := Sys.drain_safe n hn timeout ht pre post s hpre hpost hrun
    have hc : s.world.ln.w.c = s.live := hD.2.2.2.2.2.1
    refine ⟨hD.2.2.2.2.2.2.1, hc, ?_, ?_⟩
    · intro hlog
      have h0 := hD.2.2.2.2.2.2.2.2.2.1 hlog
      exact ⟨h0, by rw [← hc]; exact h0⟩
    · intro e he
      have hr := hD.returned e he
      exact ⟨hr.1, by rw [← hc]; exact hr.1, hr.2⟩
  · intro k e hk
    have hT0 : (List.replicate n (Thread.acceptReturned true none)).length = n := by simp
    have hpre := Sys.mid_close_run n [false, false] 0 false 0 none [] hn k 0
      (List.replicate n (.acceptReturned true none)) (by omega) (Or.inr rfl)
    rw [hT0, Nat.zero_add, ← Sys.accepted_eq_mid n hn] at hpre
    refine ⟨closeRun 0 n k,
      [.step (n + k + 1) none, .step (n + k + 1) none] ++ closeRun k (n + k + 2) (n - k)
        ++ shutdownLeave (n + k) e, _, _, closeRun_quiet 0 n k, ?_, hpre, ?_,
      Sys.drain_returns n k hn hk timeout e, ?_, ?_, rfl⟩
    · intro a ha
      simp only [List.mem_append, List.mem_cons, List.mem_singleton, List.not_mem_nil, or_false,
        shutdownLeave] at ha
      rcases ha with (ha | ha) | ha
      · rcases ha with ha | ha <;> rw [ha] <;> rfl
      · exact closeRun_quiet _ _ _ a ha
      · rcases ha with ha | ha | ha | ha | ha <;> rw [ha] <;> rfl
    · exact Sys.mid_live _ _ _ _ _ _ _ _ _
    · simp [Sys.mid]
    · rw [Sys.mid_live, Nat.sub_self]

/-- C2 for three connections and `GracefulShutdown(-1)`: one is closed before
the call, two while it waits, and the wrapped `Close` returns nil. -/
theorem C2_shutdown_returns_only_after_drain_witness :
    ∃ (pre post : List Action) (s0 s : Sys), (∀ a ∈ pre, a.quiet = true) ∧
      (∀ a ∈ post, a.quiet = true) ∧
      (Sys.accepted 3).run pre = .ok s0 ∧ s0.live = 3 - 1 ∧
      (Sys.accepted 3).run (pre ++ .GracefulShutdown (-1) :: post) = .ok s ∧
      Thread.gsReturned none ∈ s.threads ∧ s.live = 0 ∧
      s.world.ln.Listener.closeLog = [none] :=
  (C2_shutdown_returns_only_after_drain 3 (by norm_num) (-1) (by norm_num)).2.2 1 none
    (by norm_num)

/-! ## The timeout path on open gates -/

/-- The timeout path of `GracefulShutdown` when the cancel gate and the
suspend gate are open channels: the timer case runs `CancelWait`, the deferred
`restart` runs, and the call returns `ErrTimeout`; the wrapped listener is not
closed, the waiter's fields and the wrappers are as before, the cancel gate
and the suspend gate are closed, the stop flag is 0 and the guard is re-armed. -/
theorem GracefulShutdown_timeout_of_open_gates (s : Sys) (front rest : List Thread)
    (timeout : Int) (d : Chan) (hth : s.threads = front ++ .gsSelect timeout d :: rest)
    (ht : 0 < timeout) (hcancel : s.world.heap.isOpen s.world.ln.w.cancel = true)
    (hsuspend : s.world.heap.isOpen s.world.ln.suspend = true)
    (hne : s.world.ln.suspend ≠ s.world.ln.w.cancel) :
    ∃ s1 s2, s.step (.timer front.length) = .ok s1 ∧
      s1.step (.step front.length none) = .ok s2 ∧
      s2.threads = front ++ .gsReturned (some .ErrTimeout) :: rest ∧
      s2.world.ln.Listener.closeLog = s.world.ln.Listener.closeLog ∧
      s2.world.ln.w = s.world.ln.w ∧ s2.conns = s.conns ∧
      s2.world.heap.isClosed s.world.ln.w.cancel = true ∧
      s2.world.heap.isClosed s.world.ln.suspend = true ∧
      s2.world.ln.stop = 0 ∧ s2.world.ln.once.done = false := by
  obtain ⟨a, hca, halt, hclose⟩ := Heap.close_of_isOpen _ _ hcancel
  obtain ⟨b, hsb, hblt, _⟩ := Heap.close_of_isOpen _ _ hsuspend
  have hab : b ≠ a := by
    intro h
    apply hne
    rw [hsb, hca, h]
  have hsus1 : (s.world.heap.set a true)[b]? = some false := by
    have : s.world.heap[b]? = some false := by
      have := hsuspend
      rw [hsb] at this
      simpa [Heap.isOpen] using this
    rw [List.getElem?_set_ne (Ne.symm hab)]
    exact this
  refine ⟨(s.setHeap (s.world.heap.set a true)).goto front.length (.gsDefer (some .ErrTimeout)),
    { s with world := { heap := (s.world.heap.set a true).set b true,
                        ln := { s.world.ln with stop := 0, once := { done := false } } },
             threads := front ++ .gsReturned (some .ErrTimeout) :: rest },
    ?_, ?_, rfl, rfl, rfl, rfl, ?_, ?_, rfl, rfl⟩
  · simp only [Sys.step, hth, get_mid, ht, if_true, waiter.CancelWait, hclose]
  · have hth1 : ((s.setHeap (s.world.heap.set a true)).goto front.length
        (.gsDefer (some .ErrTimeout))).threads
        = front ++ .gsDefer (some .ErrTimeout) :: rest := by
      simp only [Sys.goto, Sys.setHeap, hth, set_mid]
    rw [Sys.step_at _ front rest _ none hth1]
    simp only [Sys.stepThread, gracefulListener.restart, Sys.goto, Sys.setHeap, hsb, Heap.close,
      hsus1, hth, set_mid]
  · rw [hca, Heap.isClosed_set_other _ _ _ (by simp; exact Ne.symm hab)]
    exact Heap.isClosed_set_self _ _ halt
  · rw [hsb]
    exact Heap.isClosed_set_self _ _ (by simp; exact hblt)

end Graceful
